import Mathlib

/-!
Verification of the twitter-api account-pool / orchestrator / reconciliation core.

The definitions below are a shallow embedding of the TypeScript sources:
  - src/models/TwitterAccount.ts   (TwitterAccount: canUse, waitTimeFor, getSuccessRate, ...)
  - src/services/AccountManager.ts (getBestAvailableAccount, getWaitTime, updateAccountStatus)
  - src/services/twitter.ts        (executeOperation, _executeConcurrentTasks, _processTweets,
                                    _fetchAndMergeThreads, getThread, _normalizeTweetText)

Conventions of the embedding:
  - JavaScript Date.now()/epoch seconds are threaded as an explicit integer "now".
  - The external scraper, the HTML-entity decoder (the npm package "he") and the
    persistence layer (dbService) are modelled as oracle function parameters; a
    fallible external call returns an Except String value (the thrown Error message).
  - JavaScript Array.prototype.sort with a numeric comparator is a stable sort; it is
    modelled with Mathlib's List.insertionSort, whose placement rule (insert x before
    the first y with r x y) coincides with a stable sort for these comparators.
  - JavaScript string truthiness (undefined or "" is falsy) is modelled by strTruthy.
  - JavaScript String.length counts UTF-16 code units; modelled by utf16Len.
-/

set_option maxRecDepth 100000

namespace TwitterApi

/-- JavaScript whitespace characters (the ASCII part of the regexp class backslash-s
plus NBSP), used for the t.co-suffix regexp and for String.prototype.trim. -/
def isJsWs (c : Char) : Bool :=
  c = ' ' || c = '\t' || c = '\n' || c = '\x0d' || c = '\x0b' || c = '\x0c' || c = ' '

/-- JavaScript String.length: the number of UTF-16 code units (astral code points count twice). -/
def utf16Len (s : String) : Nat :=
  s.toList.foldl (fun n c => n + (if 0x10000 ≤ c.toNat then 2 else 1)) 0

/-- Test whether the second character list starts with the first one. -/
def charsStart : List Char → List Char → Bool
  | [], _ => true
  | _ :: _, [] => false
  | a :: ps, b :: cs => a = b && charsStart ps cs

/-- Regexp word characters: the class backslash-w, i.e. [A-Za-z0-9_]. -/
def isWordChar (c : Char) : Bool :=
  (('a' ≤ c && c ≤ 'z') || ('A' ≤ c && c ≤ 'Z') || ('0' ≤ c && c ≤ '9') || c = '_')

/-- Match the tail of the pattern: https?://t.co/ then one or more word characters,
anchored to the end of the remaining characters. -/
def tcoUrl (cs : List Char) : Bool :=
  if charsStart "http".toList cs then
    let r₀ := cs.drop 4
    let r₁ := if r₀.head? = some 's' then r₀.drop 1 else r₀
    if charsStart "://t.co/".toList r₁ then
      let w := r₁.drop 8
      !w.isEmpty && w.all isWordChar
    else false
  else false

/-- Match the full anchored pattern backslash-s* https?://t.co/ backslash-w+ $ against the
whole remaining character list (the leading whitespace run is consumed greedily; the URL
part cannot start with a whitespace character, so this is deterministic). -/
def tcoMatch : List Char → Bool
  | [] => false
  | c :: rest => if isJsWs c then tcoMatch rest else tcoUrl (c :: rest)

/-- Index of the leftmost position whose suffix matches the anchored t.co pattern,
mirroring the leftmost-match rule of String.prototype.replace. -/
def tcoFindIdx : List Char → Option Nat
  | [] => none
  | c :: rest => if tcoMatch (c :: rest) then some 0 else (tcoFindIdx rest).map (· + 1)

/-- Embedding of text.replace(/\s*https?:\/\/t\.co\/\w+$/, '') from _processTweets. -/
def stripTcoSuffix (s : String) : String :=
  match tcoFindIdx s.toList with
  | none => s
  | some i => String.mk (s.toList.take i)

/-- Embedding of .replace(/\n/g, ' '). -/
def replaceNewlines (s : String) : String :=
  String.mk (s.toList.map (fun c => if c = '\n' then ' ' else c))

/-- Embedding of String.prototype.trim (whitespace stripped from both ends). -/
def jsTrim (s : String) : String :=
  String.mk ((s.toList.dropWhile isJsWs).reverse.dropWhile isJsWs |>.reverse)

/-- Embedding of TwitterService._normalizeTweetText; the HTML-entity decoder of the
external "he" package is passed in as the oracle parameter decode. -/
def normalizeTweetText (decode : String → String) (text : String) : String :=
  jsTrim (replaceNewlines (decode text))

/-- JavaScript truthiness of an optional string: undefined and the empty string are falsy. -/
def strTruthy : Option String → Bool
  | none => false
  | some s => !(s = "")

/-! Account data model, from src/models/TwitterAccount.ts. -/

/-- Health counters of one account (AccountHealth). Date stamps are epoch integers. -/
structure AccountHealth where
  successCount : Nat
  failureCount : Nat
  lastSuccess : Option Int
  lastFailure : Option Int
  lastError : Option String
deriving DecidableEq, Repr

/-- Rate-limit entry for one endpoint category (RateLimitInfo). -/
structure RateLimitInfo where
  remaining : Int
  reset : Int
  limit : Int
deriving DecidableEq, Repr

/-- One pooled credential (class TwitterAccount). The rateLimits Map is an
insertion-ordered association list. -/
structure Account where
  username : String
  password : String
  email : Option String
  priority : Int
  tags : List String
  disabled : Bool
  isLoggedIn : Bool
  inUse : Bool
  health : AccountHealth
  rateLimits : List (String × RateLimitInfo)
deriving DecidableEq, Repr

/-- Success rate (TwitterAccount.getSuccessRate): successCount / total, and 1 when no
operation has been recorded yet. Written with mkRat, the exact rational division (the
lemma getSuccessRate_eq_div below restates it as the quotient), so that concrete pools
evaluate inside the kernel. -/
def Account.getSuccessRate (a : Account) : ℚ :=
  let total := a.health.successCount + a.health.failureCount
  if total = 0 then 1 else mkRat (a.health.successCount : Int) total

/-- The success rate is the rational quotient successCount / (successCount + failureCount). -/
lemma getSuccessRate_eq_div (a : Account) :
    a.getSuccessRate =
      if a.health.successCount + a.health.failureCount = 0 then 1
      else (a.health.successCount : ℚ) /
        ((a.health.successCount + a.health.failureCount : Nat) : ℚ) := by
  show (if a.health.successCount + a.health.failureCount = 0 then (1 : ℚ)
      else mkRat (a.health.successCount : Int)
        (a.health.successCount + a.health.failureCount)) = _
  split_ifs with h
  · rfl
  · rw [Rat.mkRat_eq_div]
    push_cast
    ring_nf

/-- The auto-disable threshold 0.2 as the exact rational 1/5. -/
lemma mkRat_one_five : (mkRat 1 5 : ℚ) = 1/5 := by
  rw [Rat.mkRat_eq_div]
  norm_num

/-- Embedding of TwitterAccount.canUse. A present endpoint ("" is falsy, hence ignored)
with a recorded rate-limit entry blocks the account iff now < reset and remaining <= 0. -/
def Account.canUse (a : Account) (endpoint : Option String) (now : Int) : Bool :=
  if a.disabled then false
  else
    match endpoint with
    | none => true
    | some ep =>
      if ep = "" then true
      else
        match List.lookup ep a.rateLimits with
        | none => true
        | some rl => if now < rl.reset ∧ rl.remaining ≤ 0 then false else true

/-- Embedding of TwitterAccount.waitTimeFor: seconds until the endpoint is usable again. -/
def Account.waitTimeFor (a : Account) (endpoint : String) (now : Int) : Int :=
  match List.lookup endpoint a.rateLimits with
  | none => 0
  | some rl => if 0 < rl.remaining ∨ rl.reset ≤ now then 0 else rl.reset - now

/-- Map.set on the rateLimits association list: replace in place, append when new. -/
def rlSet (endpoint : String) (rl : RateLimitInfo) : List (String × RateLimitInfo) → List (String × RateLimitInfo)
  | [] => [(endpoint, rl)]
  | (k, v) :: rest => if k = endpoint then (endpoint, rl) :: rest else (k, v) :: rlSet endpoint rl rest

/-- Embedding of TwitterAccount.updateRateLimit. -/
def Account.updateRateLimit (a : Account) (endpoint : String) (rl : RateLimitInfo) : Account :=
  { a with rateLimits := rlSet endpoint rl a.rateLimits }

/-- Embedding of TwitterAccount.recordSuccess. -/
def Account.recordSuccess (a : Account) (now : Int) : Account :=
  { a with health := { a.health with
      successCount := a.health.successCount + 1
      lastSuccess := some now } }

/-- Embedding of TwitterAccount.recordFailure. -/
def Account.recordFailure (a : Account) (now : Int) (error : Option String) : Account :=
  { a with health := { a.health with
      failureCount := a.health.failureCount + 1
      lastFailure := some now
      lastError := error } }

/-- Embedding of TwitterAccount.disable. -/
def Account.disable (a : Account) : Account :=
  { a with disabled := true }

/-! AccountManager, from src/services/AccountManager.ts. The pool is the list of
accounts in the manager's base order (the array kept stably sorted by ascending
priority, insertion order preserved within equal priorities). -/

/-- Failure branch of AccountManager.updateAccountStatus: record the failure, then
apply the auto-disable rule (failureCount > 5 and success rate < 0.2 disables). -/
def recordFailureUpdate (error : Option String) (now : Int) (a : Account) : Account :=
  let af := a.recordFailure now error
  if 5 < af.health.failureCount ∧ af.getSuccessRate < mkRat 1 5 then af.disable else af

/-- Tail of AccountManager.updateAccountStatus: overwrite the endpoint's rate-limit
entry when both the endpoint ("" is falsy) and the rate-limit argument are supplied. -/
def applyRateLimitArg (endpoint : Option String) (rateLimit : Option RateLimitInfo)
    (a : Account) : Account :=
  match endpoint, rateLimit with
  | some ep, some rl => if ep = "" then a else a.updateRateLimit ep rl
  | _, _ => a

/-- Pure part of AccountManager.updateAccountStatus: record the outcome, apply the
auto-disable rule, and overwrite the endpoint rate-limit entry when one is supplied.
The subsequent dbService.updateAccountState persistence call is modelled separately
as an oracle where executeOperation needs it. -/
def updateAccountStatus (success : Bool) (error : Option String) (endpoint : Option String)
    (rateLimit : Option RateLimitInfo) (now : Int) (a : Account) : Account :=
  applyRateLimitArg endpoint rateLimit
    (if success then a.recordSuccess now else recordFailureUpdate error now a)

/-- Comparator of the selection sort: sort((a, b) => b.getSuccessRate() - a.getSuccessRate()),
i.e. a may be placed before b iff rate b <= rate a (descending by success rate). -/
def rateGe (a b : Account) : Prop := b.getSuccessRate ≤ a.getSuccessRate

instance : DecidableRel rateGe := fun a b =>
  inferInstanceAs (Decidable (b.getSuccessRate ≤ a.getSuccessRate))

/-- Filter of getBestAvailableAccount: enabled, rate-limit-usable, and not reserved. -/
def availableFor (endpoint : Option String) (now : Int) (a : Account) : Bool :=
  !a.disabled && a.canUse endpoint now && !a.inUse

/-- Embedding of AccountManager.getBestAvailableAccount: filter the available accounts,
stable-sort them by success rate descending, and return the first one. -/
def getBestAvailableAccount (endpoint : Option String) (now : Int) (accounts : List Account) :
    Option Account :=
  if accounts.isEmpty then none
  else
    let available := accounts.filter (availableFor endpoint now)
    if available.isEmpty then none
    else
      match List.insertionSort rateGe available with
      | [] => none
      | b :: _ => some b

/-- Embedding of AccountManager.getAvailableAccountCount. -/
def getAvailableAccountCount (endpoint : Option String) (now : Int) (accounts : List Account) : Nat :=
  (accounts.filter (fun a => !a.disabled && a.canUse endpoint now)).length

/-- Number.MAX_SAFE_INTEGER, the untouched sentinel of getWaitTime. -/
def MAX_SAFE_INTEGER : Int := 9007199254740991

/-- Embedding of AccountManager.getWaitTime: 0 when some account is available now;
otherwise the minimum wait over the non-disabled accounts, the untouched sentinel
collapsing to 0. -/
def getWaitTime (endpoint : String) (now : Int) (accounts : List Account) : Int :=
  if 0 < getAvailableAccountCount (some endpoint) now accounts then 0
  else
    let m := accounts.foldl
      (fun m a =>
        if a.disabled then m
        else
          let w := a.waitTimeFor endpoint now
          if w < m then w else m)
      MAX_SAFE_INTEGER
    if m = MAX_SAFE_INTEGER then 0 else m

/-- Earliest account of the list having the maximal success rate; the head of the
stable descending sort used by getBestAvailableAccount (proved below). -/
def firstBest : List Account → Option Account
  | [] => none
  | a :: rest =>
    match firstBest rest with
    | none => some a
    | some m => if m.getSuccessRate ≤ a.getSuccessRate then some a else some m

/-! Orchestrator: TwitterService.executeOperation. The external calls are oracles:
attempt bundles getScraper plus the supplied operation (its Except value is the thrown
Error message), and persist is dbService.updateAccountState keyed by username. Time is
frozen at now for the duration of the call. -/

/-- Outcome of one executeOperation call: the returned value or thrown message, the
final pool state, and the usernames attempted (in order). -/
structure ExecOutcome (α : Type) where
  result : Except String α
  pool : List Account
  attempted : List String
deriving Repr

/-- Message of the pool-exhaustion Error thrown after the retry loop, mirroring
lastError?.message || 'Unknown error' (an empty message is falsy). -/
def exhaustMsg (lastError : Option String) : String :=
  "Operation failed for all accounts. Last error: " ++
    (match lastError with
     | some m => if m = "" then "Unknown error" else m
     | none => "Unknown error")

/-- In-place mutation of the pooled account object, applied to every account with the
given username (usernames are unique keys in practice). -/
def poolSet (u : String) (f : Account → Account) (pool : List Account) : List Account :=
  pool.map (fun a => if a.username = u then f a else a)

/-- Retry loop of executeOperation. The fuel bounds the while loop: each iteration adds
one new username to attempted and the loop stops once attempted.length reaches the pool
size, so poolLength + 1 fuel is never exhausted. The try block runs attempt; on success
updateAccountStatus(true) persists and the reservation is cleared before returning; a
throw from the try block (operation failure, or the success-path persistence fault) is
caught, recorded as a failure with its own persistence call, and the loop continues; a
fault raised by that failure-path persistence call escapes the loop uncaught. -/
def executeOperationGo {α : Type} (attempt : Account → Except String α)
    (persist : String → Except String Unit) (endpoint : Option String) (now : Int) :
    Nat → List String → Option String → List Account → ExecOutcome α
  | 0, attempted, lastError, pool => ⟨.error (exhaustMsg lastError), pool, attempted⟩
  | fuel + 1, attempted, lastError, pool =>
    if attempted.length < pool.length then
      match getBestAvailableAccount endpoint now pool with
      | none => ⟨.error (exhaustMsg lastError), pool, attempted⟩
      | some account =>
        if account.username ∈ attempted then ⟨.error (exhaustMsg lastError), pool, attempted⟩
        else
          let attempted₁ := attempted ++ [account.username]
          let pool₁ := poolSet account.username (fun a => { a with inUse := true }) pool
          match attempt { account with inUse := true } with
          | .ok v =>
            let pool₂ := poolSet account.username
              (updateAccountStatus true none endpoint none now) pool₁
            match persist account.username with
            | .ok _ =>
              ⟨.ok v, poolSet account.username (fun a => { a with inUse := false }) pool₂,
                attempted₁⟩
            | .error pe =>
              let pool₃ := poolSet account.username
                (updateAccountStatus false (some pe) endpoint none now) pool₂
              match persist account.username with
              | .ok _ =>
                executeOperationGo attempt persist endpoint now fuel attempted₁ (some pe)
                  (poolSet account.username (fun a => { a with inUse := false }) pool₃)
              | .error pe₂ => ⟨.error pe₂, pool₃, attempted₁⟩
          | .error e =>
            let pool₂ := poolSet account.username
              (updateAccountStatus false (some e) endpoint none now) pool₁
            match persist account.username with
            | .ok _ =>
              executeOperationGo attempt persist endpoint now fuel attempted₁ (some e)
                (poolSet account.username (fun a => { a with inUse := false }) pool₂)
            | .error pe₂ => ⟨.error pe₂, pool₂, attempted₁⟩
    else ⟨.error (exhaustMsg lastError), pool, attempted⟩

/-- Embedding of TwitterService.executeOperation. -/
def executeOperation {α : Type} (attempt : Account → Except String α)
    (persist : String → Except String Unit) (endpoint : Option String) (now : Int)
    (pool : List Account) : ExecOutcome α :=
  executeOperationGo attempt persist endpoint now (pool.length + 1) [] none pool

/-! Bounded task runner: TwitterService._executeConcurrentTasks. Workers atomically pop
(item, index) pairs from the shared FIFO and write task(item) into the pre-sized results
array at that index; the only nondeterminism observable in the final array is the order
in which the writes land, an arbitrary permutation of one write per queue entry. -/

/-- Concurrency ceiling of the runner: Math.max(1, accountManager.getAccountCount());
also the number of spawned workers. -/
def concurrencyLimit (poolSize : Nat) : Nat := max 1 poolSize

/-- The writes the workers perform: one (original index, task item) pair per queue entry. -/
def writeSet {α β : Type} (task : α → β) (items : List α) : List (Nat × β) :=
  items.enum.map (fun p => (p.1, task p.2))

/-- Apply a sequence of indexed writes to the results array (completion order). -/
def applyWrites {β : Type} (ws : List (Nat × β)) (init : List (Option β)) : List (Option β) :=
  ws.foldl (fun acc w => acc.set w.1 (some w.2)) init

/-! Tweet data model and the reconciliation engine of src/services/twitter.ts. -/

/-- Minimal shape of an external tweet as read and written by the reconciliation
pipeline. Fields mirror the scraper's Tweet: all scalar fields are optional, thread is
the unordered bundle attached to a conversation head, and inReplyToHandle stands for
the raw in_reply_to_screen_name. -/
inductive Tweet where
  | mk
    (id : Option String)
    (text : Option String)
    (html : Option String)
    (isRetweet : Bool)
    (retweetedStatus : Option Tweet)
    (conversationId : Option String)
    (isReply : Bool)
    (timestamp : Option Int)
    (inReplyToHandle : Option String)
    (thread : List Tweet)

/-- Field accessor for Tweet.id. -/
def Tweet.id : Tweet → Option String
  | .mk i _ _ _ _ _ _ _ _ _ => i

/-- Field accessor for Tweet.text. -/
def Tweet.text : Tweet → Option String
  | .mk _ t _ _ _ _ _ _ _ _ => t

/-- Field accessor for Tweet.html. -/
def Tweet.html : Tweet → Option String
  | .mk _ _ h _ _ _ _ _ _ _ => h

/-- Field accessor for Tweet.isRetweet. -/
def Tweet.isRetweet : Tweet → Bool
  | .mk _ _ _ r _ _ _ _ _ _ => r

/-- Field accessor for Tweet.retweetedStatus. -/
def Tweet.retweetedStatus : Tweet → Option Tweet
  | .mk _ _ _ _ rs _ _ _ _ _ => rs

/-- Field accessor for Tweet.conversationId. -/
def Tweet.conversationId : Tweet → Option String
  | .mk _ _ _ _ _ c _ _ _ _ => c

/-- Field accessor for Tweet.isReply. -/
def Tweet.isReply : Tweet → Bool
  | .mk _ _ _ _ _ _ r _ _ _ => r

/-- Field accessor for Tweet.timestamp. -/
def Tweet.timestamp : Tweet → Option Int
  | .mk _ _ _ _ _ _ _ ts _ _ => ts

/-- Field accessor for Tweet.inReplyToHandle. -/
def Tweet.inReplyToHandle : Tweet → Option String
  | .mk _ _ _ _ _ _ _ _ h _ => h

/-- Field accessor for Tweet.thread. -/
def Tweet.thread : Tweet → List Tweet
  | .mk _ _ _ _ _ _ _ _ _ th => th

/-- Spread update for the successful truncation repair:
{ ...tweet, retweetedStatus: full, text: full.text, html: full.html }. -/
def Tweet.withRepair : Tweet → Tweet → Tweet
  | .mk i _ _ r _ c rp ts h th, full => .mk i full.text full.html r (some full) c rp ts h th

/-- Spread update mirroring the nested item: { ...tweet, text: orig.text, html: orig.html }. -/
def Tweet.withMirror : Tweet → Tweet → Tweet
  | .mk i _ _ r rs c rp ts h th, orig => .mk i orig.text orig.html r rs c rp ts h th

/-- Threshold TRUNCATION_SUSPICION_THRESHOLD from twitter.ts. -/
def TRUNCATION_SUSPICION_THRESHOLD : Nat := 265

/-- Per-item body of _processTweets. The first component records whether the corrective
single-item fetch was issued; the second is the task's outcome in Except form, where an
error escaping the task would reject the whole batch (the internal try/catch makes the
error branch of fetch fall through to the mirror fallback instead). The decode oracle
is the HTML-entity decoder of the "he" package; fetch is this.getTweet through the
Orchestrator, returning the fetched tweet, null, or a thrown message. -/
def processTweetRun (decode : String → String) (fetch : String → Except String (Option Tweet))
    (t : Tweet) : Bool × Except String Tweet :=
  match t.isRetweet, t.retweetedStatus with
  | true, some o =>
    let text := o.text.getD ""
    let textWithoutUrl := stripTcoSuffix text
    let textForLengthCheck := normalizeTweetText decode textWithoutUrl
    if strTruthy o.id ∧ TRUNCATION_SUSPICION_THRESHOLD ≤ utf16Len textForLengthCheck then
      match fetch (o.id.getD "") with
      | .ok (some full) => (true, .ok (t.withRepair full))
      | .ok none => (true, .ok (t.withMirror o))
      | .error _ => (true, .ok (t.withMirror o))
    else (false, .ok (t.withMirror o))
  | true, none => (false, .ok t)
  | false, _ => (false, .ok t)

/-- Embedding of _processTweets: the fan-out over the batch (order-independence of the
runner is established separately), rejecting if any task rejects. -/
def processTweets (decode : String → String) (fetch : String → Except String (Option Tweet))
    (tweets : List Tweet) : Except String (List Tweet) :=
  tweets.mapM (fun t => (processTweetRun decode fetch t).2)

/-- Thread-marker test: originalTweet.text?.includes of the thread glyph. -/
def hasThreadEmoji (text : Option String) : Bool :=
  match text with
  | none => false
  | some s => s.contains '🧵'

/-- Effective conversation id of a batch item in the merge walk of _fetchAndMergeThreads:
the nested item's conversation id for a reshare, otherwise the item's own. -/
def effConvId (t : Tweet) : Option String :=
  match t.isRetweet, t.retweetedStatus with
  | true, some o => o.conversationId
  | _, _ => t.conversationId

/-- Thread-candidacy detection of _fetchAndMergeThreads, returning the conversation id
to enqueue when the item is a potential thread. -/
def detectThreadId (username : String) (t : Tweet) : Option String :=
  match t.isRetweet, t.retweetedStatus with
  | true, some o =>
    if hasThreadEmoji o.text && strTruthy o.conversationId then o.conversationId else none
  | _, _ =>
    let repliedTo := t.inReplyToHandle
    let isSelfReply := t.isReply &&
      ((strTruthy repliedTo && (repliedTo.getD "").toLower = username.toLower) ||
        !strTruthy repliedTo)
    if strTruthy t.conversationId && (isSelfReply || hasThreadEmoji t.text) then
      t.conversationId
    else none

/-- One step of collecting a detected conversation id into the insertion-ordered set. -/
def collectStep (username : String) (acc : List String) (t : Tweet) : List String :=
  match detectThreadId username t with
  | some c => if c ∈ acc then acc else acc ++ [c]
  | none => acc

/-- Insertion-ordered distinct conversation ids collected into threadsToFetch. -/
def collectThreadIds (username : String) (tweets : List Tweet) : List String :=
  tweets.foldl (collectStep username) []

/-- Per-id task of the thread fan-out, in Except form: getThread failures are caught and
yield a null thread, as does an empty thread. -/
def mergeTaskE (gfetch : String → Except String (List Tweet)) (c : String) :
    Except String (String × Option (List Tweet)) :=
  match gfetch c with
  | .ok th => if 0 < th.length then .ok (c, some th) else .ok (c, none)
  | .error _ => .ok (c, none)

/-- One step of building the fetchedThreads map: a resolved thread is appended under
its conversation id, an unresolved result is skipped. -/
def buildStep (m : List (String × List Tweet)) (r : String × Option (List Tweet)) :
    List (String × List Tweet) :=
  match r.2 with
  | some th => m ++ [(r.1, th)]
  | none => m

/-- The fetchedThreads map: association list of the successfully resolved threads, in
fetch order. -/
def buildFetched (results : List (String × Option (List Tweet))) :
    List (String × List Tweet) :=
  results.foldl buildStep []

/-- Final walk of _fetchAndMergeThreads: splice each resolved thread at the first batch
item carrying its conversation id, drop later items with the same id, pass everything
else through. -/
def mergeWalk (fetched : List (String × List Tweet)) :
    List Tweet → List String → List Tweet
  | [], _ => []
  | t :: ts, added =>
    match effConvId t with
    | some c =>
      if c ≠ "" ∧ (List.lookup c fetched).isSome then
        if c ∈ added then mergeWalk fetched ts added
        else ((List.lookup c fetched).getD []) ++ mergeWalk fetched ts (added ++ [c])
      else t :: mergeWalk fetched ts added
    | none => t :: mergeWalk fetched ts added

/-- Embedding of _fetchAndMergeThreads; gfetch is this.getThread through the
Orchestrator (thrown messages in the error case). -/
def fetchAndMergeThreads (gfetch : String → Except String (List Tweet)) (username : String)
    (tweets : List Tweet) : Except String (List Tweet) :=
  let ids := collectThreadIds username tweets
  if ids.isEmpty then .ok tweets
  else do
    let results ← ids.mapM (mergeTaskE gfetch)
    .ok (mergeWalk (buildFetched results) tweets [])

/-- Sort key of the thread sort: tweet.timestamp ?? 0. -/
def tsKey (t : Tweet) : Int := t.timestamp.getD 0

/-- Comparator of the thread sort: sort((a, b) => (a.timestamp ?? 0) - (b.timestamp ?? 0)). -/
def tsLe (a b : Tweet) : Prop := tsKey a ≤ tsKey b

instance : DecidableRel tsLe := fun a b => inferInstanceAs (Decidable (tsKey a ≤ tsKey b))

/-- Embedding of TwitterService.getThread: fetch gives scraper.getTweet as an oracle
(null as none). The returned list is the fetched item alone when it has no truthy
conversation id, empty when it or the head is unavailable, and otherwise the head
combined with its bundled thread, stably sorted ascending by timestamp. -/
def getThread (fetch : String → Option Tweet) (tweetId : String) : List Tweet :=
  match fetch tweetId with
  | none => []
  | some t =>
    if !strTruthy t.conversationId then [t]
    else
      match fetch (t.conversationId.getD "") with
      | none => []
      | some h => List.insertionSort tsLe (h :: h.thread)

/-! Properties of the stable selection sort. -/

/-- Head of the stable descending success-rate sort is the earliest maximal-rate element. -/
lemma head_insertionSort_rateGe (l : List Account) :
    (List.insertionSort rateGe l).head? = firstBest l := by
  induction l with
  | nil => rfl
  | cons a rest ih =>
    show (List.orderedInsert rateGe a (List.insertionSort rateGe rest)).head? =
      firstBest (a :: rest)
    rw [firstBest, ← ih]
    cases h : List.insertionSort rateGe rest with
    | nil => rfl
    | cons b tl =>
      rw [List.orderedInsert]
      by_cases hr : b.getSuccessRate ≤ a.getSuccessRate
      · rw [if_pos (show rateGe a b from hr)]
        simp [hr]
      · rw [if_neg (show ¬ rateGe a b from hr)]
        simp [hr]

/-- The earliest maximal-rate element belongs to the list. -/
lemma firstBest_mem {l : List Account} {m : Account} (h : firstBest l = some m) : m ∈ l := by
  induction l with
  | nil => simp [firstBest] at h
  | cons a rest ih =>
    rw [firstBest] at h
    split at h
    · simp only [Option.some.injEq] at h
      subst h
      exact List.mem_cons_self a rest
    · next b hfb =>
      split at h
      · simp only [Option.some.injEq] at h
        subst h
        exact List.mem_cons_self a rest
      · simp only [Option.some.injEq] at h
        subst h
        exact List.mem_cons_of_mem a (ih hfb)

/-- An empty first-best search means an empty list. -/
lemma firstBest_eq_none {l : List Account} : firstBest l = none ↔ l = [] := by
  cases l with
  | nil => simp [firstBest]
  | cons a rest =>
    simp only [firstBest]
    cases firstBest rest with
    | none => simp
    | some b => by_cases hr : b.getSuccessRate ≤ a.getSuccessRate <;> simp [hr]

/-- The earliest maximal-rate element has maximal success rate. -/
lemma firstBest_max {l : List Account} :
    ∀ {m : Account}, firstBest l = some m →
      ∀ a ∈ l, a.getSuccessRate ≤ m.getSuccessRate := by
  induction l with
  | nil => intro m h; simp [firstBest] at h
  | cons a rest ih =>
    intro m h
    rw [firstBest] at h
    split at h
    · next hfb =>
      simp only [Option.some.injEq] at h
      subst h
      intro x hx
      rcases List.mem_cons.mp hx with hx | hx
      · exact hx ▸ le_refl _
      · exact absurd hx (by rw [firstBest_eq_none.mp hfb]; simp)
    · next b hfb =>
      split at h
      · next hr =>
        simp only [Option.some.injEq] at h
        subst h
        intro x hx
        rcases List.mem_cons.mp hx with hx | hx
        · exact hx ▸ le_refl _
        · exact le_trans (ih hfb x hx) hr
      · next hr =>
        simp only [Option.some.injEq] at h
        subst h
        intro x hx
        rcases List.mem_cons.mp hx with hx | hx
        · exact hx ▸ le_of_not_le hr
        · exact ih hfb x hx

/-- The list splits at the earliest maximal-rate element, every earlier element having a
strictly smaller success rate (the tie-break of the stable sort). -/
lemma firstBest_split {l : List Account} {m : Account} (h : firstBest l = some m) :
    ∃ l₁ l₂, l = l₁ ++ m :: l₂ ∧ ∀ a ∈ l₁, a.getSuccessRate < m.getSuccessRate := by
  induction l with
  | nil => simp [firstBest] at h
  | cons a rest ih =>
    rw [firstBest] at h
    split at h
    · simp only [Option.some.injEq] at h
      subst h
      exact ⟨[], rest, rfl, by simp⟩
    · next b hfb =>
      split at h
      · simp only [Option.some.injEq] at h
        subst h
        exact ⟨[], rest, rfl, by simp⟩
      · next hr =>
        simp only [Option.some.injEq] at h
        subst h
        obtain ⟨l₁, l₂, heq, hlt⟩ := ih hfb
        refine ⟨a :: l₁, l₂, by rw [heq]; rfl, ?_⟩
        intro x hx
        rcases List.mem_cons.mp hx with hx | hx
        · exact hx ▸ lt_of_not_le hr
        · exact hlt x hx

/-- Selection as the earliest maximal-rate survivor. -/
lemma getBestAvailableAccount_eq_firstBest (endpoint : Option String) (now : Int)
    (pool : List Account) :
    getBestAvailableAccount endpoint now pool =
      firstBest (pool.filter (availableFor endpoint now)) := by
  unfold getBestAvailableAccount
  by_cases hp : pool.isEmpty
  · rw [if_pos hp]
    rw [List.isEmpty_iff.mp hp]
    simp [firstBest]
  · rw [if_neg hp]
    by_cases hs : (pool.filter (availableFor endpoint now)).isEmpty
    · rw [if_pos hs]
      rw [List.isEmpty_iff.mp hs]
      simp [firstBest]
    · rw [if_neg hs]
      have hh := head_insertionSort_rateGe (pool.filter (availableFor endpoint now))
      cases hsort : List.insertionSort rateGe (pool.filter (availableFor endpoint now)) with
      | nil =>
        exfalso
        have hperm := List.perm_insertionSort rateGe (pool.filter (availableFor endpoint now))
        rw [hsort] at hperm
        exact hs (List.isEmpty_iff.mpr hperm.symm.eq_nil)
      | cons c tl =>
        rw [hsort] at hh
        simpa using hh

/-- Unpacking of the availability filter into the claim's conditions. -/
lemma availableFor_props {endpoint : Option String} {now : Int} {a : Account}
    (h : availableFor endpoint now a = true) :
    a.disabled = false ∧ a.inUse = false ∧
      (∀ ep rl, endpoint = some ep → ep ≠ "" → List.lookup ep a.rateLimits = some rl →
        0 < rl.remaining ∨ rl.reset ≤ now) := by
  unfold availableFor at h
  rw [Bool.and_eq_true, Bool.and_eq_true] at h
  obtain ⟨⟨hd, hc⟩, hi⟩ := h
  have hd2 : a.disabled = false := by simpa using hd
  refine ⟨hd2, by simpa using hi, ?_⟩
  intro ep rl hep hne hrl
  subst hep
  simp only [Account.canUse, hd2, Bool.false_eq_true, if_false, hne, hrl] at hc
  by_cases hblock : now < rl.reset ∧ rl.remaining ≤ 0
  · rw [if_pos hblock] at hc
    exact absurd hc (by simp)
  · rcases not_and_or.mp hblock with h1 | h1
    · exact Or.inr (le_of_not_lt h1)
    · exact Or.inl (lt_of_not_le h1)

/-- C2: for every pool configuration and endpoint category, getBestAvailableAccount
returns none exactly when no account survives the filter, and otherwise returns a
survivor that is not disabled, not reserved (inUse false), rate-limit-usable for the
category (remaining positive, or the reset time reached, or no recorded entry; no
rate-limit condition when the category is omitted), whose success rate is maximal among
survivors, ties broken by the pool's stable base ordering (the earliest maximal-rate
survivor in the pool's base order). -/
theorem getBestAvailableAccount_spec (endpoint : Option String) (now : Int)
    (pool : List Account) :
    (getBestAvailableAccount endpoint now pool = none ↔
      pool.filter (availableFor endpoint now) = []) ∧
    (∀ b, getBestAvailableAccount endpoint now pool = some b →
      b.disabled = false ∧ b.inUse = false ∧
      (∀ ep rl, endpoint = some ep → ep ≠ "" →
        List.lookup ep b.rateLimits = some rl → 0 < rl.remaining ∨ rl.reset ≤ now) ∧
      (∀ a ∈ pool.filter (availableFor endpoint now),
        a.getSuccessRate ≤ b.getSuccessRate) ∧
      ∃ l₁ l₂, pool.filter (availableFor endpoint now) = l₁ ++ b :: l₂ ∧
        ∀ a ∈ l₁, a.getSuccessRate < b.getSuccessRate) := by
  constructor
  · rw [getBestAvailableAccount_eq_firstBest]
    exact firstBest_eq_none
  · intro b hb
    rw [getBestAvailableAccount_eq_firstBest] at hb
    have hmem := firstBest_mem hb
    have hav : availableFor endpoint now b = true := (List.mem_filter.mp hmem).2
    obtain ⟨h1, h2, h3⟩ := availableFor_props hav
    exact ⟨h1, h2, h3, firstBest_max hb, firstBest_split hb⟩

/-- Demo account builder used by the concrete witnesses. -/
def demoAccount (u : String) (sc fc : Nat) : Account :=
  { username := u, password := "p", email := none, priority := 1, tags := [],
    disabled := false, isLoggedIn := false, inUse := false,
    health := { successCount := sc, failureCount := fc, lastSuccess := none,
                lastFailure := none, lastError := none },
    rateLimits := [] }

/-- Witness for C2 at a concrete pool: the account with the higher success rate is
selected, and it is neither disabled nor reserved. -/
theorem getBestAvailableAccount_spec_witness :
    getBestAvailableAccount (some "tweets") 0
        [demoAccount "a1" 1 1, demoAccount "a2" 3 1] = some (demoAccount "a2" 3 1) ∧
    (demoAccount "a2" 3 1).disabled = false ∧ (demoAccount "a2" 3 1).inUse = false :=
  ⟨by decide,
   ((getBestAvailableAccount_spec (some "tweets") 0
      [demoAccount "a1" 1 1, demoAccount "a2" 3 1]).2 (demoAccount "a2" 3 1)
      (by decide)).1,
   ((getBestAvailableAccount_spec (some "tweets") 0
      [demoAccount "a1" 1 1, demoAccount "a2" 3 1]).2 (demoAccount "a2" 3 1)
      (by decide)).2.1⟩

/-! Auto-disable rule (claim C3). -/

/-- Health and disabled flag after a recorded failure: the health is the recorded
failure's health whatever the endpoint and rate-limit arguments, and the account ends
disabled exactly when the auto-disable condition fires (or it already was disabled). -/
lemma applyRateLimitArg_fields (ep : Option String) (rl : Option RateLimitInfo)
    (a : Account) :
    (applyRateLimitArg ep rl a).health = a.health ∧
    (applyRateLimitArg ep rl a).disabled = a.disabled := by
  cases ep with
  | none => exact ⟨rfl, rfl⟩
  | some ep₀ =>
    cases rl with
    | none => exact ⟨rfl, rfl⟩
    | some rl₀ =>
      have hred : applyRateLimitArg (some ep₀) (some rl₀) a =
          if ep₀ = "" then a else a.updateRateLimit ep₀ rl₀ := rfl
      rw [hred]
      by_cases hep : ep₀ = ""
      · rw [if_pos hep]
        exact ⟨rfl, rfl⟩
      · rw [if_neg hep]
        exact ⟨rfl, rfl⟩

lemma recordFailureUpdate_fields (e : Option String) (now : Int) (a : Account) :
    (recordFailureUpdate e now a).health = (a.recordFailure now e).health ∧
    (recordFailureUpdate e now a).disabled =
      (if 5 < (a.recordFailure now e).health.failureCount ∧
          (a.recordFailure now e).getSuccessRate < mkRat 1 5 then true else a.disabled) := by
  unfold recordFailureUpdate
  by_cases hc : 5 < (a.recordFailure now e).health.failureCount ∧
      (a.recordFailure now e).getSuccessRate < mkRat 1 5
  · rw [if_pos hc, if_pos hc]
    exact ⟨rfl, rfl⟩
  · rw [if_neg hc, if_neg hc]
    exact ⟨rfl, rfl⟩

lemma updateAccountStatus_false_fields (e : Option String) (ep : Option String)
    (rl : Option RateLimitInfo) (now : Int) (a : Account) :
    (updateAccountStatus false e ep rl now a).health = (a.recordFailure now e).health ∧
    (updateAccountStatus false e ep rl now a).disabled =
      (if 5 < (a.recordFailure now e).health.failureCount ∧
          (a.recordFailure now e).getSuccessRate < mkRat 1 5 then true else a.disabled) := by
  unfold updateAccountStatus
  rw [if_neg (by simp)]
  obtain ⟨hrl1, hrl2⟩ := applyRateLimitArg_fields ep rl (recordFailureUpdate e now a)
  obtain ⟨hf1, hf2⟩ := recordFailureUpdate_fields e now a
  exact ⟨hrl1.trans hf1, hrl2.trans hf2⟩

/-- Success rate depends only on the health record. -/
lemma getSuccessRate_congr {a b : Account} (h : a.health = b.health) :
    a.getSuccessRate = b.getSuccessRate := by
  unfold Account.getSuccessRate
  rw [h]

/-- Iterated failure recording: the i-th recorded failure carries message errs i at
time nows i. -/
def applyFailures (errs : Nat → Option String) (nows : Nat → Int) : Nat → Account → Account
  | 0, a => a
  | n + 1, a => updateAccountStatus false (errs n) none none (nows n)
      (applyFailures errs nows n a)

/-- Failure counters and the disabled flag of a fresh account after n recorded failures. -/
lemma applyFailures_fresh (errs : Nat → Option String) (nows : Nat → Int) (a : Account)
    (h0 : a.health.successCount = 0) (h1 : a.health.failureCount = 0)
    (hd : a.disabled = false) (n : Nat) :
    (applyFailures errs nows n a).health.successCount = 0 ∧
    (applyFailures errs nows n a).health.failureCount = n ∧
    (applyFailures errs nows n a).disabled = decide (5 < n) := by
  induction n with
  | zero => simpa [applyFailures] using ⟨h0, h1, hd⟩
  | succ n ih =>
    obtain ⟨ih0, ih1, ih2⟩ := ih
    have hfields := updateAccountStatus_false_fields (errs n) none none (nows n)
      (applyFailures errs nows n a)
    have hrec : ((applyFailures errs nows n a).recordFailure (nows n) (errs n)).health =
        { successCount := 0, failureCount := n + 1,
          lastSuccess := (applyFailures errs nows n a).health.lastSuccess,
          lastFailure := some (nows n), lastError := errs n } := by
      simp [Account.recordFailure, ih0, ih1]
    have hrate : ((applyFailures errs nows n a).recordFailure (nows n) (errs n)).getSuccessRate
        = 0 := by
      unfold Account.getSuccessRate
      rw [hrec]
      simp [Rat.mkRat_eq_div]
    have h02 : (0 : ℚ) < mkRat 1 5 := by
      rw [mkRat_one_five]
      norm_num
    refine ⟨?_, ?_, ?_⟩
    · show (applyFailures errs nows (n + 1) a).health.successCount = 0
      rw [applyFailures, hfields.1, hrec]
    · show (applyFailures errs nows (n + 1) a).health.failureCount = n + 1
      rw [applyFailures, hfields.1, hrec]
    · show (applyFailures errs nows (n + 1) a).disabled = decide (5 < n + 1)
      rw [applyFailures, hfields.2, hrec, hrate]
      by_cases h6 : 5 < n + 1
      · rw [if_pos ⟨by simpa using h6, h02⟩]
        simp [h6]
      · rw [if_neg (by simp [h6])]
        rw [ih2]
        have hn5 : ¬ 5 < n := fun hn => h6 (Nat.lt_succ_of_lt hn)
        simp [h6, hn5]

/-- C3: from zero recorded operations, five recorded failures leave the account
enabled and the sixth disables it; in general, after a recorded failure the account is
disabled exactly when the post-increment failure count exceeds 5 and the post-increment
success rate is below 1/5 (an already-disabled account stays disabled, never the case
when starting enabled). -/
theorem updateAccountStatus_auto_disable :
    (∀ (errs : Nat → Option String) (nows : Nat → Int) (a : Account),
      a.health.successCount = 0 → a.health.failureCount = 0 → a.disabled = false →
      (applyFailures errs nows 5 a).disabled = false ∧
      (applyFailures errs nows 6 a).disabled = true) ∧
    (∀ (a : Account) (e ep : Option String) (rl : Option RateLimitInfo) (now : Int),
      a.disabled = false →
      ((updateAccountStatus false e ep rl now a).disabled = true ↔
        5 < (updateAccountStatus false e ep rl now a).health.failureCount ∧
        (updateAccountStatus false e ep rl now a).getSuccessRate < 1/5)) := by
  constructor
  · intro errs nows a h0 h1 hd
    refine ⟨?_, ?_⟩
    · rw [(applyFailures_fresh errs nows a h0 h1 hd 5).2.2]
      simp
    · rw [(applyFailures_fresh errs nows a h0 h1 hd 6).2.2]
      simp
  · intro a e ep rl now hd
    obtain ⟨hh, hdis⟩ := updateAccountStatus_false_fields e ep rl now a
    have hrate : (updateAccountStatus false e ep rl now a).getSuccessRate =
        (a.recordFailure now e).getSuccessRate := getSuccessRate_congr hh
    rw [hdis, hh, hrate, mkRat_one_five, hd]
    by_cases hc : 5 < (a.recordFailure now e).health.failureCount ∧
        (a.recordFailure now e).getSuccessRate < 1/5
    · rw [if_pos hc]
      exact iff_of_true rfl hc
    · rw [if_neg hc]
      exact iff_of_false (by simp) hc

/-- Constant none message sequence for the C3 witness. -/
def constNone : Nat → Option String := fun _ => none

/-- Constant zero timestamp sequence for the C3 witness. -/
def constZero : Nat → Int := fun _ => 0

/-- Witness for C3 at a concrete fresh account: not disabled after 5 failures,
disabled after the 6th. -/
theorem updateAccountStatus_auto_disable_witness :
    (applyFailures constNone constZero 5 (demoAccount "w" 0 0)).disabled = false ∧
    (applyFailures constNone constZero 6 (demoAccount "w" 0 0)).disabled = true :=
  updateAccountStatus_auto_disable.1 constNone constZero (demoAccount "w" 0 0) rfl rfl rfl

/-! Wait-time reporting (claim C10). -/

/-- The minimum-wait fold skips disabled accounts, so over a fully disabled list it
leaves the sentinel untouched. -/
lemma waitFold_all_disabled (endpoint : String) (now : Int) :
    ∀ (l : List Account) (m : Int), (∀ a ∈ l, a.disabled = true) →
      l.foldl
        (fun m a =>
          if a.disabled then m
          else
            let w := a.waitTimeFor endpoint now
            if w < m then w else m)
        m = m := by
  intro l
  induction l with
  | nil => intro m _; rfl
  | cons a rest ih =>
    intro m h
    rw [List.foldl_cons]
    rw [if_pos (h a (List.mem_cons_self a rest))]
    exact ih m (fun x hx => h x (List.mem_cons_of_mem a hx))

/-- C10: when every account in the pool is disabled (vacuously, also for the empty
pool), getWaitTime reports a zero wait for every endpoint category: the availability
count is zero, the minimum-wait scan skips every account, and the untouched sentinel
collapses to 0. -/
theorem getWaitTime_all_disabled_zero (endpoint : String) (now : Int) (pool : List Account)
    (h : ∀ a ∈ pool, a.disabled = true) :
    getWaitTime endpoint now pool = 0 := by
  have hcount : getAvailableAccountCount (some endpoint) now pool = 0 := by
    unfold getAvailableAccountCount
    rw [List.length_eq_zero, List.filter_eq_nil_iff]
    intro a ha
    simp [h a ha]
  unfold getWaitTime
  rw [hcount, if_neg (by simp)]
  rw [waitFold_all_disabled endpoint now pool MAX_SAFE_INTEGER h]
  simp

/-- Demo disabled account holding an exhausted rate-limit entry, so that only the
disabled-skip makes the reported wait collapse to zero. -/
def demoDisabled : Account :=
  { demoAccount "d" 0 0 with
    disabled := true
    rateLimits := [("tweets", { remaining := 0, reset := 500, limit := 50 })] }

/-- Witness for C10 at a concrete one-account pool whose only account is disabled. -/
theorem getWaitTime_all_disabled_zero_witness :
    getWaitTime "tweets" 100 [demoDisabled] = 0 :=
  getWaitTime_all_disabled_zero "tweets" 100 [demoDisabled]
    (by intro a ha; simp at ha; rw [ha]; rfl)

/-! Bounded task runner (claim C4). -/

/-- Unfolding of applyWrites on the empty write sequence. -/
lemma applyWrites_nil {β : Type} (init : List (Option β)) :
    applyWrites ([] : List (Nat × β)) init = init := rfl

/-- Unfolding of applyWrites on a first write. -/
lemma applyWrites_cons {β : Type} (w : Nat × β) (ws : List (Nat × β)) (init : List (Option β)) :
    applyWrites (w :: ws) init = applyWrites ws (init.set w.1 (some w.2)) := rfl

/-- Writes split along list append. -/
lemma applyWrites_append {β : Type} (ws₁ ws₂ : List (Nat × β)) (init : List (Option β)) :
    applyWrites (ws₁ ++ ws₂) init = applyWrites ws₂ (applyWrites ws₁ init) :=
  List.foldl_append _ _ ws₁ ws₂

/-- Writing never changes the length of the results array. -/
lemma applyWrites_length {β : Type} (ws : List (Nat × β)) (init : List (Option β)) :
    (applyWrites ws init).length = init.length := by
  induction ws generalizing init with
  | nil => rfl
  | cons w ws ih =>
    rw [applyWrites_cons, ih, List.length_set]

/-- A slot no write targets keeps its value. -/
lemma applyWrites_getElem_not_mem {β : Type} {ws : List (Nat × β)} {i : Nat}
    (h : i ∉ ws.map Prod.fst) (init : List (Option β)) :
    (applyWrites ws init)[i]? = init[i]? := by
  induction ws generalizing init with
  | nil => rfl
  | cons w ws ih =>
    simp only [List.map_cons, List.mem_cons, not_or] at h
    rw [applyWrites_cons, ih h.2]
    exact List.getElem?_set_ne (Ne.symm h.1)

/-- C4: for every input list, every pure task, and every completion order of the
writes (any permutation of one write per (item, index) pair), the runner's results
array ends as the input-order map of the task over the items, and the number of
spawned workers is the concurrency ceiling max(1, poolSize). -/
theorem executeConcurrentTasks_order_independent {α β : Type} (task : α → β)
    (items : List α) (ws : List (Nat × β)) (poolSize : Nat)
    (hperm : ws.Perm (writeSet task items)) :
    applyWrites ws (List.replicate items.length (none : Option β)) =
      (items.map task).map some ∧
    concurrencyLimit poolSize = max 1 poolSize := by
  refine ⟨?_, rfl⟩
  apply List.ext_getElem?
  intro i
  by_cases hi : i < items.length
  · have hitem : items[i]? = some items[i] := List.getElem?_eq_getElem hi
    have hwval : (writeSet task items)[i]? = some (i, task items[i]) := by
      unfold writeSet
      rw [List.getElem?_map, List.getElem?_enum, hitem]
      rfl
    have hwmem : (i, task items[i]) ∈ ws :=
      hperm.mem_iff.mpr (List.mem_iff_getElem?.mpr ⟨i, hwval⟩)
    obtain ⟨ws₁, ws₂, hsplit⟩ := List.append_of_mem hwmem
    have hnodup : (ws.map Prod.fst).Nodup := by
      refine ((hperm.map Prod.fst).nodup_iff).mpr ?_
      have hfst : (writeSet task items).map Prod.fst = List.range items.length := by
        unfold writeSet
        rw [List.map_map]
        exact List.enum_map_fst items
      rw [hfst]
      exact List.nodup_range items.length
    have hi2 : i ∉ ws₂.map Prod.fst := by
      rw [hsplit] at hnodup
      simp only [List.map_append, List.map_cons] at hnodup
      exact (List.nodup_cons.mp hnodup.of_append_right).1
    rw [hsplit, applyWrites_append]
    have hlen1 : i < (applyWrites ws₁ (List.replicate items.length (none : Option β))).length := by
      rw [applyWrites_length, List.length_replicate]
      exact hi
    rw [applyWrites_cons, applyWrites_getElem_not_mem hi2]
    have hset : ((applyWrites ws₁ (List.replicate items.length (none : Option β))).set i
        (some (task items[i])))[i]? = some (some (task items[i])) := by
      rw [List.getElem?_set_self]
      simp [hlen1]
    rw [hset]
    rw [List.getElem?_map, List.getElem?_map, hitem]
    rfl
  · have h1 : (applyWrites ws (List.replicate items.length (none : Option β)))[i]? = none := by
      apply List.getElem?_eq_none
      rw [applyWrites_length, List.length_replicate]
      exact Nat.le_of_not_lt hi
    have h2 : ((items.map task).map some)[i]? = none := by
      apply List.getElem?_eq_none
      rw [List.length_map, List.length_map]
      exact Nat.le_of_not_lt hi
    rw [h1, h2]

/-- Witness for C4 at a concrete scrambled completion order: writes landing in the
order index 2, index 0, index 1 still produce the input-order results. -/
theorem executeConcurrentTasks_order_independent_witness :
    applyWrites [(2, 31), (0, 11), (1, 21)]
        (List.replicate ([10, 20, 30] : List Nat).length (none : Option Nat)) =
      (([10, 20, 30] : List Nat).map (· + 1)).map some ∧
    concurrencyLimit 2 = max 1 2 :=
  executeConcurrentTasks_order_independent (· + 1) [10, 20, 30] [(2, 31), (0, 11), (1, 21)] 2
    (by decide)

/-! Orchestrator proofs (claims C1 and C8). -/

/-- A fresh account: no recorded operations, enabled, unreserved, no rate limits. -/
def freshAccount (a : Account) : Prop :=
  a.health.successCount = 0 ∧ a.health.failureCount = 0 ∧ a.disabled = false ∧
    a.inUse = false ∧ a.rateLimits = []

instance : DecidablePred freshAccount := fun a => by
  unfold freshAccount
  infer_instance

/-- Shape of a fresh account after exactly one failed attempt. -/
def failedShape (a : Account) : Prop :=
  a.health.successCount = 0 ∧ a.health.failureCount = 1 ∧ a.disabled = false ∧
    a.inUse = false ∧ a.rateLimits = []

/-- The account value a fresh account becomes after one failed attempt of
executeOperation: one recorded failure and the reservation cleared. -/
def failedOnce (e : String) (now : Int) (a : Account) : Account :=
  { a.recordFailure now (some e) with inUse := false }

/-- Success rate of a fresh account is the optimistic 1. -/
lemma freshAccount_rate {a : Account} (h : freshAccount a) : a.getSuccessRate = 1 := by
  unfold Account.getSuccessRate
  rw [h.1, h.2.1]
  simp

/-- Success rate of a once-failed account is 0. -/
lemma failedShape_rate {a : Account} (h : failedShape a) : a.getSuccessRate = 0 := by
  unfold Account.getSuccessRate
  rw [h.1, h.2.1]
  simp [Rat.mkRat_eq_div]

/-- An enabled, unreserved account with no recorded rate limits passes the selection
filter for every endpoint. -/
lemma availableFor_of_noRL {a : Account} (hd : a.disabled = false) (hu : a.inUse = false)
    (hrl : a.rateLimits = []) (endpoint : Option String) (now : Int) :
    availableFor endpoint now a = true := by
  unfold availableFor Account.canUse
  rw [hd, hu, hrl]
  cases endpoint with
  | none => rfl
  | some ep =>
    by_cases hep : ep = ""
    · simp [hep]
    · simp [hep]

/-- The earliest maximum of a list splitting as weaker-left, candidate, no-stronger-right. -/
lemma firstBest_append (F : List Account) (s : Account) (S : List Account)
    (hF : ∀ x ∈ F, x.getSuccessRate < s.getSuccessRate)
    (hS : ∀ x ∈ S, x.getSuccessRate ≤ s.getSuccessRate) :
    firstBest (F ++ s :: S) = some s := by
  induction F with
  | nil =>
    rw [List.nil_append, firstBest]
    cases hfb : firstBest S with
    | none => rfl
    | some m =>
      show (if m.getSuccessRate ≤ s.getSuccessRate then some s else some m) = some s
      rw [if_pos (hS m (firstBest_mem hfb))]
  | cons x F ih =>
    rw [List.cons_append, firstBest]
    rw [ih (fun y hy => hF y (List.mem_cons_of_mem x hy))]
    show (if s.getSuccessRate ≤ x.getSuccessRate then some x else some s) = some s
    rw [if_neg (not_le.mpr (hF x (List.mem_cons_self x F)))]

/-- Selection over a pool of once-failed accounts followed by fresh accounts picks the
first fresh account. -/
lemma getBest_fresh_pool (endpoint : Option String) (now : Int) (F : List Account)
    (s : Account) (S : List Account) (hF : ∀ a ∈ F, failedShape a) (hs : freshAccount s)
    (hS : ∀ a ∈ S, freshAccount a) :
    getBestAvailableAccount endpoint now (F ++ s :: S) = some s := by
  rw [getBestAvailableAccount_eq_firstBest]
  have hfilter : (F ++ s :: S).filter (availableFor endpoint now) = F ++ s :: S := by
    apply List.filter_eq_self.mpr
    intro a ha
    rcases List.mem_append.mp ha with ha | ha
    · obtain ⟨_, _, hd, hu, hrl⟩ := hF a ha
      exact availableFor_of_noRL hd hu hrl endpoint now
    · rcases List.mem_cons.mp ha with ha | ha
      · subst ha
        obtain ⟨_, _, hd, hu, hrl⟩ := hs
        exact availableFor_of_noRL hd hu hrl endpoint now
      · obtain ⟨_, _, hd, hu, hrl⟩ := hS a ha
        exact availableFor_of_noRL hd hu hrl endpoint now
  rw [hfilter]
  apply firstBest_append
  · intro x hx
    rw [failedShape_rate (hF x hx), freshAccount_rate hs]
    norm_num
  · intro x hx
    rw [freshAccount_rate (hS x hx), freshAccount_rate hs]

/-- Membership in a pool after the in-place mutation of one username. -/
lemma mem_poolSet {b : Account} {u : String} {f : Account → Account} {pool : List Account}
    (hb : b ∈ poolSet u f pool) :
    ∃ a ∈ pool, b = if a.username = u then f a else a := by
  obtain ⟨a, ha, hab⟩ := List.mem_map.mp hb
  exact ⟨a, ha, hab.symm⟩

/-- The mutation of one username leaves pools not containing it untouched. -/
lemma poolSet_not_mem {u : String} {f : Account → Account} {pool : List Account}
    (h : u ∉ pool.map Account.username) : poolSet u f pool = pool := by
  induction pool with
  | nil => rfl
  | cons a rest ih =>
    simp only [List.map_cons, List.mem_cons, not_or] at h
    show (if a.username = u then f a else a) :: poolSet u f rest = a :: rest
    rw [if_neg (fun he => h.1 he.symm), ih h.2]

/-- The mutation of the username of the middle element of a split pool rewrites exactly
that element when the username occurs nowhere else. -/
lemma poolSet_append (u : String) (f : Account → Account) (F S : List Account) (s : Account)
    (hs : s.username = u) (hF : u ∉ F.map Account.username)
    (hS : u ∉ S.map Account.username) :
    poolSet u f (F ++ s :: S) = F ++ f s :: S := by
  unfold poolSet
  rw [List.map_append, List.map_cons]
  rw [if_pos hs]
  show poolSet u f F ++ f s :: poolSet u f S = F ++ f s :: S
  rw [poolSet_not_mem hF, poolSet_not_mem hS]

/-- Updating with a supplied rate limit but no endpoint, or the converse, is the
identity on the account. -/
lemma applyRateLimitArg_none (ep : Option String) (a : Account) :
    applyRateLimitArg ep none a = a := by
  cases ep <;> rfl

/-- A recorded failure that does not reach the auto-disable threshold only appends the
failure to the health record. -/
lemma updateAccountStatus_false_no_disable (e : String) (ep : Option String) (now : Int)
    (a : Account) (h5 : (a.recordFailure now (some e)).health.failureCount ≤ 5) :
    updateAccountStatus false (some e) ep none now a = a.recordFailure now (some e) := by
  unfold updateAccountStatus
  rw [if_neg (by simp)]
  rw [applyRateLimitArg_none]
  show (if 5 < (a.recordFailure now (some e)).health.failureCount ∧
      (a.recordFailure now (some e)).getSuccessRate < mkRat 1 5 then
    (a.recordFailure now (some e)).disable else a.recordFailure now (some e)) = _
  rw [if_neg (fun hc => absurd hc.1 (not_lt.mpr h5))]

/-- Out of fuel: the loop reports exhaustion (never reached from the entry point,
whose fuel exceeds the iteration bound). -/
lemma executeOperationGo_zero {α : Type} (attempt : Account → Except String α) (persist)
    (endpoint) (now) (attempted) (lastErr) (pool) :
    executeOperationGo attempt persist endpoint now 0 attempted lastErr pool =
      ⟨Except.error (exhaustMsg lastErr), pool, attempted⟩ := rfl

/-- Loop exit when the attempted set has reached the pool size. -/
lemma executeOperationGo_exhaust_len {α : Type} (attempt : Account → Except String α)
    (persist) (endpoint) (now) (fuel) (attempted) (lastErr) (pool)
    (h : ¬ attempted.length < pool.length) :
    executeOperationGo attempt persist endpoint now (fuel + 1) attempted lastErr pool =
      ⟨Except.error (exhaustMsg lastErr), pool, attempted⟩ := by
  rw [executeOperationGo, if_neg h]

/-- Loop exit when no account survives the selection filter. -/
lemma executeOperationGo_exhaust_none {α : Type} (attempt : Account → Except String α)
    (persist) (endpoint) (now) (fuel) (attempted) (lastErr) (pool)
    (hlen : attempted.length < pool.length)
    (hbest : getBestAvailableAccount endpoint now pool = none) :
    executeOperationGo attempt persist endpoint now (fuel + 1) attempted lastErr pool =
      ⟨Except.error (exhaustMsg lastErr), pool, attempted⟩ := by
  rw [executeOperationGo, if_pos hlen, hbest]

/-- Loop exit when the best available account was already attempted. -/
lemma executeOperationGo_exhaust_attempted {α : Type} (attempt : Account → Except String α)
    (persist) (endpoint) (now) (fuel) (attempted) (lastErr) (pool) (account)
    (hlen : attempted.length < pool.length)
    (hbest : getBestAvailableAccount endpoint now pool = some account)
    (hmem : account.username ∈ attempted) :
    executeOperationGo attempt persist endpoint now (fuel + 1) attempted lastErr pool =
      ⟨Except.error (exhaustMsg lastErr), pool, attempted⟩ := by
  rw [executeOperationGo, if_pos hlen, hbest]
  simp only [hmem, if_true]

/-- One failing iteration with healthy persistence: the failure is recorded, the
reservation cleared, and the loop continues with the account added to the attempted
set and its error as the last error. -/
lemma executeOperationGo_step_fail {α : Type} (attempt : Account → Except String α)
    (persist) (endpoint) (now) (fuel) (attempted) (lastErr) (pool) (account) (e)
    (hlen : attempted.length < pool.length)
    (hbest : getBestAvailableAccount endpoint now pool = some account)
    (hmem : account.username ∉ attempted)
    (hatt : attempt { account with inUse := true } = Except.error e)
    (hper : persist account.username = Except.ok ()) :
    executeOperationGo attempt persist endpoint now (fuel + 1) attempted lastErr pool =
      executeOperationGo attempt persist endpoint now fuel
        (attempted ++ [account.username]) (some e)
        (poolSet account.username (fun a => { a with inUse := false })
          (poolSet account.username (updateAccountStatus false (some e) endpoint none now)
            (poolSet account.username (fun a => { a with inUse := true }) pool))) := by
  rw [executeOperationGo, if_pos hlen, hbest]
  simp only [hmem, if_false, hatt, hper]

/-- One successful iteration with healthy persistence: the success is recorded, the
reservation cleared, and the result returned immediately. -/
lemma executeOperationGo_step_success {α : Type} (attempt : Account → Except String α)
    (persist) (endpoint) (now) (fuel) (attempted) (lastErr) (pool) (account) (v : α)
    (hlen : attempted.length < pool.length)
    (hbest : getBestAvailableAccount endpoint now pool = some account)
    (hmem : account.username ∉ attempted)
    (hatt : attempt { account with inUse := true } = Except.ok v)
    (hper : persist account.username = Except.ok ()) :
    executeOperationGo attempt persist endpoint now (fuel + 1) attempted lastErr pool =
      ⟨Except.ok v,
        poolSet account.username (fun a => { a with inUse := false })
          (poolSet account.username (updateAccountStatus true none endpoint none now)
            (poolSet account.username (fun a => { a with inUse := true }) pool)),
        attempted ++ [account.username]⟩ := by
  rw [executeOperationGo, if_pos hlen, hbest]
  simp only [hmem, if_false, hatt, hper]

/-- One failed attempt turns a fresh account into the once-failed shape. -/
lemma failedShape_failedOnce {s : Account} (hs : freshAccount s) (e : String) (now : Int) :
    failedShape (failedOnce e now s) := by
  obtain ⟨h0, h1, hd, hu, hrl⟩ := hs
  refine ⟨?_, ?_, ?_, rfl, ?_⟩
  · simp [failedOnce, Account.recordFailure, h0]
  · simp [failedOnce, Account.recordFailure, h1]
  · simp [failedOnce, Account.recordFailure, hd]
  · simp [failedOnce, Account.recordFailure, hrl]

/-- Main loop invariant for a fresh pool under an always-failing operation: with the
once-failed front segment F already attempted, the loop attempts every remaining fresh
account
of S in base order, then exhausts with the last account's error message. -/
lemma executeOperationGo_fresh_all_fail {α : Type} (attempt : Account → Except String α)
    (persist : String → Except String Unit) (endpoint : Option String) (now : Int)
    (errOf : String → String)
    (hattempt : ∀ a, attempt a = Except.error (errOf a.username))
    (hpersist : ∀ u, persist u = Except.ok ()) :
    ∀ (S F : List Account) (lastErr : Option String) (fuel : Nat),
      (∀ a ∈ F, failedShape a) → (∀ a ∈ S, freshAccount a) →
      ((F ++ S).map Account.username).Nodup →
      S.length < fuel →
      (executeOperationGo attempt persist endpoint now fuel (F.map Account.username)
          lastErr (F ++ S)).result =
        Except.error (exhaustMsg (match S.getLast? with
          | none => lastErr
          | some t => some (errOf t.username))) ∧
      (executeOperationGo attempt persist endpoint now fuel (F.map Account.username)
          lastErr (F ++ S)).attempted = (F ++ S).map Account.username := by
  intro S
  induction S with
  | nil =>
    intro F lastErr fuel hF hS hnd hfuel
    cases fuel with
    | zero => exact absurd hfuel (by simp)
    | succ f =>
      rw [executeOperationGo_exhaust_len]
      · refine ⟨rfl, ?_⟩
        simp
      · simp
  | cons s S ih =>
    intro F lastErr fuel hF hS hnd hfuel
    cases fuel with
    | zero => exact absurd hfuel (by simp)
    | succ f =>
      have hs : freshAccount s := hS s (List.mem_cons_self s S)
      have hSrest : ∀ a ∈ S, freshAccount a := fun a ha => hS a (List.mem_cons_of_mem s ha)
      have hbest := getBest_fresh_pool endpoint now F s S hF hs hSrest
      have hlen : (F.map Account.username).length < (F ++ s :: S).length := by
        simp
      rw [List.map_append] at hnd
      obtain ⟨hndF, hndsS, hdisj⟩ := List.nodup_append.mp hnd
      have hmemF : s.username ∉ F.map Account.username := by
        intro hmem
        exact hdisj hmem (by simp)
      have hndsS₂ : (s.username :: S.map Account.username).Nodup := by
        simpa using hndsS
      have hmemS : s.username ∉ S.map Account.username := (List.nodup_cons.mp hndsS₂).1
      have hup : updateAccountStatus false (some (errOf s.username)) endpoint none now
          ({ s with inUse := true }) =
          ({ s with inUse := true }).recordFailure now (some (errOf s.username)) := by
        apply updateAccountStatus_false_no_disable
        show s.health.failureCount + 1 ≤ 5
        rw [hs.2.1]
        norm_num
      have hpool : poolSet s.username (fun a => { a with inUse := false })
          (poolSet s.username
            (updateAccountStatus false (some (errOf s.username)) endpoint none now)
            (poolSet s.username (fun a => { a with inUse := true }) (F ++ s :: S))) =
          F ++ failedOnce (errOf s.username) now s :: S := by
        have h1 := poolSet_append s.username (fun a => { a with inUse := true }) F S s rfl
          hmemF hmemS
        have h2 := poolSet_append s.username
          (updateAccountStatus false (some (errOf s.username)) endpoint none now) F S
          ({ s with inUse := true }) rfl hmemF hmemS
        have h3 := poolSet_append s.username (fun a => { a with inUse := false }) F S
          (({ s with inUse := true }).recordFailure now (some (errOf s.username))) rfl
          hmemF hmemS
        rw [h1]
        rw [h2]
        rw [hup]
        exact h3
      have hstep := executeOperationGo_step_fail attempt persist endpoint now f
        (F.map Account.username) lastErr (F ++ s :: S) s (errOf s.username)
        hlen hbest hmemF (hattempt _) (hpersist _)
      rw [hstep, hpool]
      have hF₂ : ∀ a ∈ F ++ [failedOnce (errOf s.username) now s], failedShape a := by
        intro a ha
        rcases List.mem_append.mp ha with ha | ha
        · exact hF a ha
        · rw [List.mem_singleton.mp ha]
          exact failedShape_failedOnce hs _ now
      have husers : ((F ++ [failedOnce (errOf s.username) now s]) ++ S).map Account.username
          = F.map Account.username ++ s.username :: S.map Account.username := by
        simp [failedOnce, Account.recordFailure]
      have hnd₂ : (((F ++ [failedOnce (errOf s.username) now s]) ++ S).map
          Account.username).Nodup := by
        rw [husers]
        simpa using hnd
      have hatt₂ : F.map Account.username ++ [s.username] =
          (F ++ [failedOnce (errOf s.username) now s]).map Account.username := by
        simp [failedOnce, Account.recordFailure]
      rw [hatt₂]
      have hfuel₂ : S.length < f := by
        simpa using hfuel
      have hmid : (F ++ [failedOnce (errOf s.username) now s]) ++ S =
          F ++ failedOnce (errOf s.username) now s :: S := by
        simp
      obtain ⟨hres, hattf⟩ := ih (F ++ [failedOnce (errOf s.username) now s]) (some (errOf s.username)) f
        hF₂ hSrest hnd₂ hfuel₂
      rw [hmid] at hres hattf
      refine ⟨?_, ?_⟩
      · rw [hres]
        cases S with
        | nil => rfl
        | cons t T =>
          rw [List.getLast?_cons_cons]
          cases hl : (t :: T).getLast? with
          | none => simp at hl
          | some w => rfl
      · rw [hattf]
        simp [failedOnce, Account.recordFailure]

/-- C1 (amended): for a pool of fresh accounts with distinct usernames and an
operation failing on every account (persistence healthy), executeOperation attempts
every account exactly once, in base order, and then fails with the pool-exhaustion
error carrying the last attempted account's error message. (As stated over arbitrary
pools the claim is false: no excluding set is passed to selection, so a stale-health
pool can re-select an already-attempted account and exhaust early; see the
counterexample.) -/
theorem executeOperation_fresh_pool_attempts_all {α : Type}
    (attempt : Account → Except String α) (persist : String → Except String Unit)
    (endpoint : Option String) (now : Int) (errOf : String → String) (pool : List Account)
    (hattempt : ∀ a, attempt a = Except.error (errOf a.username))
    (hpersist : ∀ u, persist u = Except.ok ())
    (hfresh : ∀ a ∈ pool, freshAccount a)
    (hnd : (pool.map Account.username).Nodup) :
    (executeOperation attempt persist endpoint now pool).result =
      Except.error (exhaustMsg (match pool.getLast? with
        | none => none
        | some t => some (errOf t.username))) ∧
    (executeOperation attempt persist endpoint now pool).attempted =
      pool.map Account.username ∧
    (executeOperation attempt persist endpoint now pool).attempted.length = pool.length := by
  have h := executeOperationGo_fresh_all_fail attempt persist endpoint now errOf hattempt
    hpersist pool [] none (pool.length + 1) (by simp) hfresh (by simpa using hnd)
    (by omega)
  rw [List.nil_append] at h
  have hres : (executeOperation attempt persist endpoint now pool).result =
      Except.error (exhaustMsg (match pool.getLast? with
        | none => none
        | some t => some (errOf t.username))) := h.1
  have hatt : (executeOperation attempt persist endpoint now pool).attempted =
      pool.map Account.username := h.2
  refine ⟨hres, hatt, ?_⟩
  rw [hatt, List.length_map]

/-- Error message each account's attempt raises in the concrete orchestrator runs. -/
def demoErrOf : String → String := fun u => "fail " ++ u

/-- Operation oracle failing on every account. -/
def demoFailAttempt : Account → Except String Unit :=
  fun a => Except.error (demoErrOf a.username)

/-- Healthy persistence oracle. -/
def persistOk : String → Except String Unit := fun _ => Except.ok ()

/-- Failing persistence oracle (the database write throws). -/
def persistFail : String → Except String Unit := fun _ => Except.error "db down"

/-- Witness for the amended C1 at a concrete fresh two-account pool: both accounts are
attempted, in order, and the exhaustion error carries the second account's message. -/
theorem executeOperation_fresh_pool_attempts_all_witness :
    (executeOperation demoFailAttempt persistOk (some "tweets") 0
        [demoAccount "a1" 0 0, demoAccount "a2" 0 0]).result =
      Except.error (exhaustMsg (some (demoErrOf "a2"))) ∧
    (executeOperation demoFailAttempt persistOk (some "tweets") 0
        [demoAccount "a1" 0 0, demoAccount "a2" 0 0]).attempted = ["a1", "a2"] := by
  have h := executeOperation_fresh_pool_attempts_all demoFailAttempt persistOk
    (some "tweets") 0 demoErrOf [demoAccount "a1" 0 0, demoAccount "a2" 0 0]
    (fun a => rfl) (fun u => rfl) (by decide) (by decide)
  exact ⟨h.1, h.2.1⟩

/-- Counterexample to C1 as stated: a two-account pool with prior health (100 successes
for a1; 1 success and 4 failures for a2) and an operation failing on every account.
After a1's single failure its success rate 100/101 still beats a2's 1/5, so selection
re-offers a1, the loop breaks, and the pool-exhaustion error is raised after one
attempt instead of two. -/
theorem executeOperation_early_exhaustion_cex :
    ([demoAccount "a1" 100 0, demoAccount "a2" 1 4] : List Account).length = 2 ∧
    (executeOperation demoFailAttempt persistOk (some "tweets") 0
        [demoAccount "a1" 100 0, demoAccount "a2" 1 4]).attempted = ["a1"] ∧
    (executeOperation demoFailAttempt persistOk (some "tweets") 0
        [demoAccount "a1" 100 0, demoAccount "a2" 1 4]).result =
      Except.error (exhaustMsg (some (demoErrOf "a1"))) := by
  refine ⟨rfl, ?_, ?_⟩
  · rfl
  · rfl

/-! Reservation-release invariant (claim C8). -/

/-- Recording an outcome never changes the account's username. -/
lemma updateAccountStatus_username (sx : Bool) (e ep : Option String)
    (rl : Option RateLimitInfo) (now : Int) (a : Account) :
    (updateAccountStatus sx e ep rl now a).username = a.username := by
  cases sx <;> rcases ep with _ | ep₀ <;> rcases rl with _ | rl₀ <;>
    simp only [updateAccountStatus, applyRateLimitArg, recordFailureUpdate,
      Account.recordSuccess, Account.recordFailure, Account.disable,
      Account.updateRateLimit, Bool.false_eq_true, if_false, if_true] <;>
    split_ifs <;> rfl

/-- One loop iteration (reserve, record through g, release) leaves every account of the
pool unreserved, provided the recording step preserves usernames and the pool started
unreserved. -/
lemma inUse_false_after_iteration (u : String) (g : Account → Account)
    (hg : ∀ a, (g a).username = a.username) (pool : List Account)
    (h : ∀ a ∈ pool, a.inUse = false) :
    ∀ b ∈ poolSet u (fun a => { a with inUse := false })
      (poolSet u g (poolSet u (fun a => { a with inUse := true }) pool)),
      b.inUse = false := by
  intro b hb
  obtain ⟨a, ha, hab⟩ := mem_poolSet hb
  by_cases hu : a.username = u
  · rw [hab, if_pos hu]
  · rw [hab, if_neg hu]
    obtain ⟨c, hc, hac⟩ := mem_poolSet ha
    by_cases hcu : c.username = u
    · exfalso
      apply hu
      rw [hac, if_pos hcu, hg c]
      exact hcu
    · rw [hac, if_neg hcu]
      rw [hac, if_neg hcu] at hu
      obtain ⟨d, hd, hcd⟩ := mem_poolSet hc
      by_cases hdu : d.username = u
      · exfalso
        apply hcu
        rw [hcd, if_pos hdu]
        exact hdu
      · rw [hcd, if_neg hdu]
        exact h d hd

/-- Loop invariant: with healthy persistence, the retry loop leaves every account of
the final pool unreserved whatever the per-account attempt outcomes. -/
lemma executeOperationGo_inUse {α : Type} (attempt : Account → Except String α)
    (persist : String → Except String Unit) (endpoint : Option String) (now : Int)
    (hpersist : ∀ u, persist u = Except.ok ()) :
    ∀ (fuel : Nat) (attempted : List String) (lastErr : Option String) (pool : List Account),
      (∀ a ∈ pool, a.inUse = false) →
      ∀ b ∈ (executeOperationGo attempt persist endpoint now fuel attempted
        lastErr pool).pool, b.inUse = false := by
  intro fuel
  induction fuel with
  | zero =>
    intro attempted lastErr pool h b hb
    rw [executeOperationGo_zero] at hb
    exact h b hb
  | succ f ih =>
    intro attempted lastErr pool h b hb
    by_cases hlen : attempted.length < pool.length
    · cases hbest : getBestAvailableAccount endpoint now pool with
      | none =>
        rw [executeOperationGo_exhaust_none attempt persist endpoint now f attempted
          lastErr pool hlen hbest] at hb
        exact h b hb
      | some account =>
        by_cases hmem : account.username ∈ attempted
        · rw [executeOperationGo_exhaust_attempted attempt persist endpoint now f attempted
            lastErr pool account hlen hbest hmem] at hb
          exact h b hb
        · cases hatt : attempt { account with inUse := true } with
          | ok v =>
            rw [executeOperationGo_step_success attempt persist endpoint now f attempted
              lastErr pool account v hlen hbest hmem hatt (hpersist _)] at hb
            exact inUse_false_after_iteration account.username
              (updateAccountStatus true none endpoint none now)
              (updateAccountStatus_username true none endpoint none now) pool h b hb
          | error e =>
            rw [executeOperationGo_step_fail attempt persist endpoint now f attempted
              lastErr pool account e hlen hbest hmem hatt (hpersist _)] at hb
            exact ih (attempted ++ [account.username]) (some e) _
              (inUse_false_after_iteration account.username
                (updateAccountStatus false (some e) endpoint none now)
                (updateAccountStatus_username false (some e) endpoint none now) pool h)
              b hb
    · rw [executeOperationGo_exhaust_len attempt persist endpoint now f attempted
        lastErr pool hlen] at hb
      exact h b hb

/-- C8 (amended): when every persistence call succeeds, executeOperation leaves every
account of the pool unreserved on termination, for every combination of per-account
successes and failures — the reservation set before each attempt is cleared on the
success path, on the operation-failure path, and on a fault absorbed by the catch
block. (As stated the claim is false: a fault raised by the failure-path persistence
call itself escapes the loop with the reservation still held; see the
counterexample.) -/
theorem executeOperation_clears_reservations {α : Type}
    (attempt : Account → Except String α) (persist : String → Except String Unit)
    (endpoint : Option String) (now : Int) (pool : List Account)
    (hpersist : ∀ u, persist u = Except.ok ())
    (hstart : ∀ a ∈ pool, a.inUse = false) :
    ∀ b ∈ (executeOperation attempt persist endpoint now pool).pool, b.inUse = false :=
  executeOperationGo_inUse attempt persist endpoint now hpersist (pool.length + 1) []
    none pool hstart

/-- Witness for the amended C8 at a concrete run (operation fails, persistence
healthy): the single account ends unreserved. -/
theorem executeOperation_clears_reservations_witness :
    ((executeOperation demoFailAttempt persistOk (some "tweets") 0
      [demoAccount "a1" 0 0]).pool.all fun b => b.inUse == false) = true :=
  List.all_eq_true.mpr fun b hb => beq_iff_eq.mpr
    (executeOperation_clears_reservations demoFailAttempt persistOk (some "tweets") 0
      [demoAccount "a1" 0 0] (fun u => rfl) (by decide) b hb)

/-- Counterexample to C8 as stated: the operation fails and the failure-path
persistence call throws; executeOperation terminates with that error while the
attempted account is still flagged in use. -/
theorem executeOperation_inUse_leak_cex :
    (executeOperation demoFailAttempt persistFail (some "tweets") 0
        [demoAccount "a1" 0 0]).attempted = ["a1"] ∧
    (executeOperation demoFailAttempt persistFail (some "tweets") 0
        [demoAccount "a1" 0 0]).pool.map Account.inUse = [true] ∧
    (executeOperation demoFailAttempt persistFail (some "tweets") 0
        [demoAccount "a1" 0 0]).result = Except.error "db down" := by
  refine ⟨rfl, rfl, rfl⟩

/-! Thread fetch (claim C7). -/

instance : IsTotal Tweet tsLe := ⟨fun a b => le_total (tsKey a) (tsKey b)⟩

instance : IsTrans Tweet tsLe := ⟨fun _ _ _ hab hbc => le_trans hab hbc⟩

/-- C7: getThread returns empty when the item does not exist, the item alone when it
carries no truthy conversation id, empty when the conversation head is unavailable,
and otherwise a permutation of the head together with its bundled thread items, sorted
ascending by timestamp (missing timestamps as 0 via the tsLe key order). -/
theorem getThread_cases_sorted (fetch : String → Option Tweet) (tweetId : String) :
    (fetch tweetId = none → getThread fetch tweetId = []) ∧
    (∀ t, fetch tweetId = some t → strTruthy t.conversationId = false →
      getThread fetch tweetId = [t]) ∧
    (∀ t c, fetch tweetId = some t → t.conversationId = some c → c ≠ "" →
      fetch c = none → getThread fetch tweetId = []) ∧
    (∀ t c h, fetch tweetId = some t → t.conversationId = some c → c ≠ "" →
      fetch c = some h →
      (getThread fetch tweetId).Perm (h :: h.thread) ∧
      (getThread fetch tweetId).Pairwise tsLe) := by
  refine ⟨?_, ?_, ?_, ?_⟩
  · intro hf
    unfold getThread
    rw [hf]
  · intro t hf hconv
    unfold getThread
    rw [hf]
    simp [hconv]
  · intro t c hf hconv hc hfc
    unfold getThread
    rw [hf]
    simp [hconv, strTruthy, hc, hfc]
  · intro t c h hf hconv hc hfh
    have hthread : getThread fetch tweetId = List.insertionSort tsLe (h :: h.thread) := by
      unfold getThread
      rw [hf]
      simp [hconv, strTruthy, hc, hfh]
    rw [hthread]
    exact ⟨List.perm_insertionSort tsLe _, List.sorted_insertionSort tsLe _⟩

/-- Reply stub with the given timestamp, for the C7 witness. -/
def replyAt (n : Int) (name : String) : Tweet :=
  Tweet.mk (some name) none none false none (some "c") false (some n) none []

/-- Conversation head with an unordered bundle of replies timestamped 30, 10, 20. -/
def threadHead : Tweet :=
  Tweet.mk (some "c") none none false none (some "c") false (some 5) none
    [replyAt 30 "r30", replyAt 10 "r10", replyAt 20 "r20"]

/-- Item inside the conversation from which the thread is requested. -/
def threadStart : Tweet :=
  Tweet.mk (some "x") none none false none (some "c") false (some 40) none []

/-- Oracle for the C7 witness. -/
def fetchDemo : String → Option Tweet :=
  fun s => if s = "x" then some threadStart else if s = "c" then some threadHead else none

/-- Witness for C7: the unordered bundle [30, 10, 20] comes back as head(5), 10, 20,
30 — a sorted permutation of the head and its bundle. -/
theorem getThread_cases_sorted_witness :
    (getThread fetchDemo "x").Perm (threadHead :: threadHead.thread) ∧
    (getThread fetchDemo "x").Pairwise tsLe ∧
    getThread fetchDemo "x" = [threadHead, replyAt 10 "r10", replyAt 20 "r20", replyAt 30 "r30"] := by
  have h := (getThread_cases_sorted fetchDemo "x").2.2.2 threadStart "c" threadHead rfl rfl
    (by decide) rfl
  exact ⟨h.1, h.2, rfl⟩

/-! Truncation repair (claim C5). -/

/-- C5 (amended): for a reshare, the corrective single-item fetch is issued exactly
when the nested item carries a truthy id AND its text — t.co suffix stripped, entities
decoded, newlines collapsed, trimmed — has UTF-16 length at least 265; when the
normalized length is below the threshold no fetch is attempted and the top-level
text/html are still overwritten with the nested item's fields. (As stated — fetch
issued exactly when the length reaches 265 — the claim is false for a nested item
without an id; see the counterexample.) -/
theorem processTweetRun_threshold (decode : String → String)
    (fetch : String → Except String (Option Tweet)) (t o : Tweet)
    (hrt : t.isRetweet = true) (hrs : t.retweetedStatus = some o) :
    ((processTweetRun decode fetch t).1 = true ↔
      (strTruthy o.id = true ∧ TRUNCATION_SUSPICION_THRESHOLD ≤
        utf16Len (normalizeTweetText decode (stripTcoSuffix (o.text.getD ""))))) ∧
    (utf16Len (normalizeTweetText decode (stripTcoSuffix (o.text.getD ""))) <
        TRUNCATION_SUSPICION_THRESHOLD →
      (processTweetRun decode fetch t).2 = Except.ok (t.withMirror o)) := by
  have hred : processTweetRun decode fetch t =
      (if strTruthy o.id = true ∧ TRUNCATION_SUSPICION_THRESHOLD ≤
          utf16Len (normalizeTweetText decode (stripTcoSuffix (o.text.getD ""))) then
        match fetch (o.id.getD "") with
        | Except.ok (some full) => (true, Except.ok (t.withRepair full))
        | Except.ok none => (true, Except.ok (t.withMirror o))
        | Except.error _ => (true, Except.ok (t.withMirror o))
      else (false, Except.ok (t.withMirror o))) := by
    unfold processTweetRun
    rw [hrt, hrs]
  rw [hred]
  by_cases hcond : strTruthy o.id = true ∧ TRUNCATION_SUSPICION_THRESHOLD ≤
      utf16Len (normalizeTweetText decode (stripTcoSuffix (o.text.getD "")))
  · rw [if_pos hcond]
    constructor
    · cases hf : fetch (o.id.getD "") with
      | ok w => cases w <;> simpa using hcond
      | error e => simpa using hcond
    · intro hlt
      exact absurd hcond.2 (not_le.mpr hlt)
  · rw [if_neg hcond]
    constructor
    · simpa using hcond
    · intro _
      rfl

/-- A 265-character plain text, normalizing to itself. -/
def longText : String := String.mk (List.replicate 265 'a')

/-- A 264-character plain text. -/
def shortText : String := String.mk (List.replicate 264 'a')

/-- Nested original without an id, carrying over-threshold text. -/
def cexOrig : Tweet :=
  Tweet.mk none (some longText) (some "oh") false none none false none none []

/-- Reshare wrapping cexOrig. -/
def cexRetweet : Tweet :=
  Tweet.mk (some "rt") (some "rtext") (some "rh") true (some cexOrig) none false none none []

/-- Nested original with an id and over-threshold text. -/
def wOrig : Tweet :=
  Tweet.mk (some "o1") (some longText) (some "oh") false none none false none none []

/-- Reshare wrapping wOrig. -/
def wRetweet : Tweet :=
  Tweet.mk (some "rt") (some "rtext") (some "rh") true (some wOrig) none false none none []

/-- Nested original with an id and 264-character text. -/
def wOrig264 : Tweet :=
  Tweet.mk (some "o2") (some shortText) (some "oh") false none none false none none []

/-- Reshare wrapping wOrig264. -/
def wRetweet264 : Tweet :=
  Tweet.mk (some "rt2") (some "rtext") (some "rh") true (some wOrig264) none false none none []

/-- Fetch oracle answering null for every id. -/
def fetchNoneE : String → Except String (Option Tweet) := fun _ => Except.ok none

/-- Counterexample to C5 as stated: a reshare whose nested item has no id and a
normalized length of 265 issues no corrective fetch. -/
theorem processTweetRun_no_fetch_without_id_cex :
    cexRetweet.isRetweet = true ∧ cexRetweet.retweetedStatus = some cexOrig ∧
    TRUNCATION_SUSPICION_THRESHOLD ≤
      utf16Len (normalizeTweetText id (stripTcoSuffix (cexOrig.text.getD ""))) ∧
    (processTweetRun id fetchNoneE cexRetweet).1 = false := by
  refine ⟨rfl, rfl, by decide, rfl⟩

/-- Witness for the amended C5: with an id present, a fetch is attempted at normalized
length 265 and not at 264, where the top-level text and html still mirror the nested
item. -/
theorem processTweetRun_threshold_witness :
    (processTweetRun id fetchNoneE wRetweet).1 = true ∧
    (processTweetRun id fetchNoneE wRetweet264).1 = false ∧
    (processTweetRun id fetchNoneE wRetweet264).2 = Except.ok (wRetweet264.withMirror wOrig264) := by
  refine ⟨?_, ?_, ?_⟩
  · exact (processTweetRun_threshold id fetchNoneE wRetweet wOrig rfl rfl).1.mpr
      ⟨rfl, by decide⟩
  · rfl
  · exact (processTweetRun_threshold id fetchNoneE wRetweet264 wOrig264 rfl rfl).2 (by decide)

/-! Failure absorption in the reconciliation engine (claim C9). -/

/-- Per-item repair as a total function: the task's Except value is always ok, so this
projection is the processed tweet. -/
def processTweetTotal (decode : String → String)
    (fetch : String → Except String (Option Tweet)) (t : Tweet) : Tweet :=
  match (processTweetRun decode fetch t).2 with
  | Except.ok r => r
  | Except.error _ => t

/-- The repair task never rejects: every control path of the per-item body ends in ok. -/
lemma processTweetRun_no_error (decode : String → String)
    (fetch : String → Except String (Option Tweet)) (t : Tweet) :
    ∃ r, (processTweetRun decode fetch t).2 = Except.ok r := by
  unfold processTweetRun
  split
  · split <;>
      first
        | exact ⟨_, rfl⟩
        | (dsimp only
           split_ifs <;> exact ⟨_, rfl⟩)
  · exact ⟨_, rfl⟩
  · exact ⟨_, rfl⟩

/-- The task's Except value is ok at exactly the total projection. -/
lemma processTweetRun_eq_total (decode : String → String)
    (fetch : String → Except String (Option Tweet)) (t : Tweet) :
    (processTweetRun decode fetch t).2 = Except.ok (processTweetTotal decode fetch t) := by
  obtain ⟨r, hr⟩ := processTweetRun_no_error decode fetch t
  unfold processTweetTotal
  rw [hr]

/-- The thread map built from uniformly unresolved results is empty. -/
lemma buildFetched_none (ids : List String) :
    ∀ (m : List (String × List Tweet)),
      (ids.map (fun c => ((c, none) : String × Option (List Tweet)))).foldl buildStep m
        = m := by
  induction ids with
  | nil => intro m; rfl
  | cons c ids ih => intro m; exact ih m

/-- The merge walk over an empty thread map passes every item through unchanged. -/
lemma mergeWalk_empty (ts : List Tweet) :
    ∀ added, mergeWalk [] ts added = ts := by
  induction ts with
  | nil => intro added; rfl
  | cons t ts ih =>
    intro added
    unfold mergeWalk
    cases effConvId t with
    | none => rw [ih]
    | some c =>
      show (if c ≠ "" ∧ (List.lookup c ([] : List (String × List Tweet))).isSome = true
          then
            (if c ∈ added then mergeWalk [] ts added
             else (List.lookup c ([] : List (String × List Tweet))).getD [] ++
               mergeWalk [] ts (added ++ [c]))
          else t :: mergeWalk [] ts added) = t :: ts
      rw [if_neg (by simp [List.lookup])]
      rw [ih]

/-- C9: no single corrective or thread fetch failure fails the batch. A repair fetch
that throws leaves the item with its nested content mirrored and the batch continues;
the batch pass always returns ok with every item processed in order; the per-id thread
task absorbs its getThread failure; and when every thread fetch fails the whole merge
returns the batch unchanged. -/
theorem reconciliation_failure_absorption :
    (∀ (decode : String → String) (fetch : String → Except String (Option Tweet))
        (t o : Tweet) (e : String), t.isRetweet = true → t.retweetedStatus = some o →
      fetch (o.id.getD "") = Except.error e →
      (processTweetRun decode fetch t).2 = Except.ok (t.withMirror o)) ∧
    (∀ (decode : String → String) (fetch : String → Except String (Option Tweet))
        (ts : List Tweet),
      processTweets decode fetch ts = Except.ok (ts.map (processTweetTotal decode fetch))) ∧
    (∀ (gfetch : String → Except String (List Tweet)) (c : String),
      ∃ r, mergeTaskE gfetch c = Except.ok r) ∧
    (∀ (gfetch : String → Except String (List Tweet)) (username : String) (ts : List Tweet),
      (∀ c, ∃ e, gfetch c = Except.error e) →
      fetchAndMergeThreads gfetch username ts = Except.ok ts) := by
  refine ⟨?_, ?_, ?_, ?_⟩
  · intro decode fetch t o e hrt hrs hfe
    have hred : processTweetRun decode fetch t =
        (if strTruthy o.id = true ∧ TRUNCATION_SUSPICION_THRESHOLD ≤
            utf16Len (normalizeTweetText decode (stripTcoSuffix (o.text.getD ""))) then
          match fetch (o.id.getD "") with
          | Except.ok (some full) => (true, Except.ok (t.withRepair full))
          | Except.ok none => (true, Except.ok (t.withMirror o))
          | Except.error _ => (true, Except.ok (t.withMirror o))
        else (false, Except.ok (t.withMirror o))) := by
      unfold processTweetRun
      rw [hrt, hrs]
    rw [hred]
    split_ifs with hcond
    · rw [hfe]
    · rfl
  · intro decode fetch ts
    induction ts with
    | nil => rfl
    | cons t ts ih =>
      show (t :: ts).mapM (fun t => (processTweetRun decode fetch t).2) = _
      rw [List.mapM_cons (fun t => (processTweetRun decode fetch t).2),
        processTweetRun_eq_total]
      rw [show ts.mapM (fun t => (processTweetRun decode fetch t).2) =
        Except.ok (ts.map (processTweetTotal decode fetch)) from ih]
      rfl
  · intro gfetch c
    cases hg : gfetch c with
    | ok th =>
      have hm : mergeTaskE gfetch c =
          (if 0 < th.length then Except.ok ((c, some th) : String × Option (List Tweet))
           else Except.ok ((c, none) : String × Option (List Tweet))) := by
        unfold mergeTaskE
        rw [hg]
      rw [hm]
      split_ifs <;> exact ⟨_, rfl⟩
    | error e =>
      have hm : mergeTaskE gfetch c = Except.ok ((c, none) : String × Option (List Tweet)) := by
        unfold mergeTaskE
        rw [hg]
      rw [hm]
      exact ⟨_, rfl⟩
  · intro gfetch username ts hall
    unfold fetchAndMergeThreads
    by_cases hids : (collectThreadIds username ts).isEmpty
    · rw [if_pos hids]
    · rw [if_neg hids]
      have hmapM : (collectThreadIds username ts).mapM (mergeTaskE gfetch) =
          Except.ok ((collectThreadIds username ts).map
            (fun c => ((c, none) : String × Option (List Tweet)))) := by
        induction collectThreadIds username ts with
        | nil => rfl
        | cons c ids ih =>
          obtain ⟨e, he⟩ := hall c
          rw [List.mapM_cons (mergeTaskE gfetch)]
          rw [show mergeTaskE gfetch c = Except.ok ((c, none) : String × Option (List Tweet))
            from by unfold mergeTaskE; rw [he]]
          rw [show ids.mapM (mergeTaskE gfetch) = Except.ok (ids.map
            (fun c => ((c, none) : String × Option (List Tweet)))) from ih]
          rfl
      rw [hmapM]
      show Except.ok (mergeWalk (buildFetched ((collectThreadIds username ts).map
        (fun c => ((c, none) : String × Option (List Tweet))))) ts []) = Except.ok ts
      rw [show buildFetched ((collectThreadIds username ts).map
          (fun c => ((c, none) : String × Option (List Tweet)))) = [] from
        buildFetched_none (collectThreadIds username ts) []]
      rw [mergeWalk_empty ts []]

/-- Fetch oracle throwing on every id. -/
def fetchErrE : String → Except String (Option Tweet) := fun _ => Except.error "net down"

/-- Thread oracle throwing on every conversation id. -/
def gfetchErr : String → Except String (List Tweet) := fun _ => Except.error "net down"

/-- Witness for C9: a failing repair fetch leaves the reshare mirrored, and a batch
whose every thread fetch fails comes back unchanged. -/
theorem reconciliation_failure_absorption_witness :
    (processTweetRun id fetchErrE wRetweet).2 = Except.ok (wRetweet.withMirror wOrig) ∧
    fetchAndMergeThreads gfetchErr "user" [threadStart] = Except.ok [threadStart] := by
  refine ⟨?_, ?_⟩
  · exact reconciliation_failure_absorption.1 id fetchErrE wRetweet wOrig "net down"
      rfl rfl rfl
  · exact reconciliation_failure_absorption.2.2.2 gfetchErr "user" [threadStart]
      (fun c => ⟨"net down", rfl⟩)

/-! Thread merge (claim C6). -/

/-- Value of the per-id thread task (always returned through ok, see C9). -/
def mergeTaskVal (gfetch : String → Except String (List Tweet)) (c : String) :
    String × Option (List Tweet) :=
  match gfetch c with
  | Except.ok th => if 0 < th.length then (c, some th) else (c, none)
  | Except.error _ => (c, none)

/-- The fetchedThreads map of a thread fan-out over the given ids. -/
def resolvedThreads (gfetch : String → Except String (List Tweet)) (ids : List String) :
    List (String × List Tweet) :=
  buildFetched (ids.map (mergeTaskVal gfetch))

/-- The per-id task's Except form returns exactly its value. -/
lemma mergeTaskE_eq_val (gfetch : String → Except String (List Tweet)) (c : String) :
    mergeTaskE gfetch c = Except.ok (mergeTaskVal gfetch c) := by
  unfold mergeTaskE mergeTaskVal
  cases gfetch c with
  | ok th =>
    show (if 0 < th.length then Except.ok ((c, some th) : String × Option (List Tweet))
        else Except.ok ((c, none) : String × Option (List Tweet))) =
      Except.ok (if 0 < th.length then ((c, some th) : String × Option (List Tweet))
        else (c, none))
    split_ifs <;> rfl
  | error e => rfl

/-- The thread fan-out never rejects and produces one value per id, in order. -/
lemma mapM_mergeTask (gfetch : String → Except String (List Tweet)) (ids : List String) :
    ids.mapM (mergeTaskE gfetch) = Except.ok (ids.map (mergeTaskVal gfetch)) := by
  induction ids with
  | nil => rfl
  | cons c ids ih =>
    rw [List.mapM_cons (mergeTaskE gfetch), mergeTaskE_eq_val, ih]
    rfl

/-- The task value is keyed by its own conversation id. -/
lemma mergeTaskVal_fst (gfetch : String → Except String (List Tweet)) (c : String) :
    (mergeTaskVal gfetch c).1 = c := by
  unfold mergeTaskVal
  cases gfetch c with
  | ok th =>
    show (if 0 < th.length then ((c, some th) : String × Option (List Tweet))
      else (c, none)).1 = c
    split_ifs <;> rfl
  | error e => rfl

/-- Unfolding of an association-list lookup on a cons cell. -/
lemma lookup_cons (c : String) (e : String × List Tweet) (es : List (String × List Tweet)) :
    List.lookup c (e :: es) = if c = e.1 then some e.2 else List.lookup c es := by
  obtain ⟨k, v⟩ := e
  show (match c == k with
    | true => some v
    | false => List.lookup c es) = _
  by_cases hc : c = k
  · rw [show (c == k) = true from beq_iff_eq.mpr hc, if_pos hc]
  · rw [show (c == k) = false from beq_eq_false_iff_ne.mpr hc, if_neg hc]

/-- Appending an entry under a different key does not change a lookup. -/
lemma lookup_append_single_ne (c k : String) (v : List Tweet)
    (m : List (String × List Tweet)) (h : k ≠ c) :
    List.lookup c (m ++ [(k, v)]) = List.lookup c m := by
  induction m with
  | nil =>
    rw [List.nil_append, lookup_cons]
    rw [if_neg (fun he => h he.symm)]
  | cons e m ih =>
    rw [List.cons_append, lookup_cons, lookup_cons, ih]

/-- Appending an entry under a key absent from the map makes its lookup find it. -/
lemma lookup_append_single_self (c : String) (v : List Tweet)
    (m : List (String × List Tweet)) (h : List.lookup c m = none) :
    List.lookup c (m ++ [(c, v)]) = some v := by
  induction m with
  | nil =>
    rw [List.nil_append, lookup_cons]
    rw [if_pos rfl]
  | cons e m ih =>
    rw [lookup_cons] at h
    by_cases hc : c = e.1
    · rw [if_pos hc] at h
      exact absurd h (by simp)
    · rw [if_neg hc] at h
      rw [List.cons_append, lookup_cons, if_neg hc]
      exact ih h

/-- Folding task results whose ids avoid c never changes c's lookup. -/
lemma lookup_buildFold_skip (c : String) :
    ∀ (rs : List (String × Option (List Tweet))) (m : List (String × List Tweet)),
      (∀ r ∈ rs, r.1 ≠ c) →
      List.lookup c (rs.foldl buildStep m) = List.lookup c m := by
  intro rs
  induction rs with
  | nil => intro m _; rfl
  | cons r rs ih =>
    intro m h
    rw [List.foldl_cons]
    rw [ih (buildStep m r) (fun x hx => h x (List.mem_cons_of_mem r hx))]
    unfold buildStep
    cases hr : r.2 with
    | none => rfl
    | some th => exact lookup_append_single_ne c r.1 th m (h r (List.mem_cons_self r rs))

/-- A conversation id fetched successfully with a non-empty thread is found in the
fetchedThreads map, for a duplicate-free id list. -/
lemma lookup_buildFold_found (gfetch : String → Except String (List Tweet)) :
    ∀ (ids : List String) (m : List (String × List Tweet)) (c : String) (th : List Tweet),
      ids.Nodup → c ∈ ids → mergeTaskVal gfetch c = (c, some th) →
      List.lookup c m = none →
      List.lookup c ((ids.map (mergeTaskVal gfetch)).foldl buildStep m) = some th := by
  intro ids
  induction ids with
  | nil => intro m c th _ hc; exact absurd hc (by simp)
  | cons d rest ih =>
    intro m c th hnd hc hval hm
    obtain ⟨hd, hrest⟩ := List.nodup_cons.mp hnd
    rw [List.map_cons, List.foldl_cons]
    by_cases hcd : c = d
    · subst hcd
      have hstep : buildStep m (mergeTaskVal gfetch c) = m ++ [(c, th)] := by
        rw [hval]
        rfl
      rw [hstep]
      rw [lookup_buildFold_skip c (rest.map (mergeTaskVal gfetch)) (m ++ [(c, th)]) ?hne]
      · exact lookup_append_single_self c th m hm
      · intro r hr
        obtain ⟨x, hx, hxr⟩ := List.mem_map.mp hr
        rw [← hxr, mergeTaskVal_fst]
        exact fun he => hd (he ▸ hx)
    · have hc2 : c ∈ rest := by
        rcases List.mem_cons.mp hc with h | h
        · exact absurd h hcd
        · exact h
      have hm2 : List.lookup c (buildStep m (mergeTaskVal gfetch d)) = none := by
        unfold buildStep
        cases hr : (mergeTaskVal gfetch d).2 with
        | none => exact hm
        | some t2 =>
          rw [lookup_append_single_ne c (mergeTaskVal gfetch d).1 t2 m
            (by rw [mergeTaskVal_fst]; exact fun he => hcd he.symm)]
          exact hm
      exact ih (buildStep m (mergeTaskVal gfetch d)) c th hrest hc2 hval hm2

/-- Collecting ids preserves duplicate-freeness of the accumulator. -/
lemma collectStep_nodup (username : String) (acc : List String) (t : Tweet)
    (h : acc.Nodup) : (collectStep username acc t).Nodup := by
  unfold collectStep
  cases detectThreadId username t with
  | none => exact h
  | some c =>
    show (if c ∈ acc then acc else acc ++ [c]).Nodup
    by_cases hc : c ∈ acc
    · rw [if_pos hc]
      exact h
    · rw [if_neg hc]
      rw [List.nodup_append]
      exact ⟨h, List.nodup_singleton c, fun x hx => by
        simp only [List.mem_singleton]
        exact fun he => hc (he ▸ hx)⟩

/-- The collected conversation ids are duplicate-free (threadsToFetch is a Set). -/
lemma collectThreadIds_nodup (username : String) (tweets : List Tweet) :
    (collectThreadIds username tweets).Nodup := by
  unfold collectThreadIds
  have hgen : ∀ (ts : List Tweet) (acc : List String), acc.Nodup →
      (ts.foldl (collectStep username) acc).Nodup := by
    intro ts
    induction ts with
    | nil => intro acc h; exact h
    | cons t ts ih =>
      intro acc h
      rw [List.foldl_cons]
      exact ih (collectStep username acc t) (collectStep_nodup username acc t h)
  exact hgen tweets [] List.nodup_nil

/-- One-step unfolding of the merge walk. -/
lemma mergeWalk_cons_eq (fetched : List (String × List Tweet)) (t : Tweet)
    (ts : List Tweet) (added : List String) :
    mergeWalk fetched (t :: ts) added =
      (match effConvId t with
       | some c =>
         if c ≠ "" ∧ (List.lookup c fetched).isSome = true then
           (if c ∈ added then mergeWalk fetched ts added
            else (List.lookup c fetched).getD [] ++ mergeWalk fetched ts (added ++ [c]))
         else t :: mergeWalk fetched ts added
       | none => t :: mergeWalk fetched ts added) := rfl

/-- Walk step: a first occurrence of a resolved conversation id splices its thread. -/
lemma mergeWalk_cons_resolved (fetched : List (String × List Tweet)) (t : Tweet)
    (ts : List Tweet) (added : List String) (c : String) (th : List Tweet)
    (hc : effConvId t = some c) (hne : c ≠ "") (hl : List.lookup c fetched = some th)
    (hnew : c ∉ added) :
    mergeWalk fetched (t :: ts) added = th ++ mergeWalk fetched ts (added ++ [c]) := by
  rw [mergeWalk_cons_eq, hc]
  show (if c ≠ "" ∧ (List.lookup c fetched).isSome = true then
      (if c ∈ added then mergeWalk fetched ts added
       else (List.lookup c fetched).getD [] ++ mergeWalk fetched ts (added ++ [c]))
    else t :: mergeWalk fetched ts added) = _
  rw [if_pos ⟨hne, by rw [hl]; rfl⟩, if_neg hnew, hl]
  rfl

/-- Walk step: a later occurrence of an already-spliced conversation id is dropped. -/
lemma mergeWalk_cons_dup (fetched : List (String × List Tweet)) (t : Tweet)
    (ts : List Tweet) (added : List String) (c : String)
    (hc : effConvId t = some c) (hne : c ≠ "") (hl : (List.lookup c fetched).isSome = true)
    (hold : c ∈ added) :
    mergeWalk fetched (t :: ts) added = mergeWalk fetched ts added := by
  rw [mergeWalk_cons_eq, hc]
  show (if c ≠ "" ∧ (List.lookup c fetched).isSome = true then
      (if c ∈ added then mergeWalk fetched ts added
       else (List.lookup c fetched).getD [] ++ mergeWalk fetched ts (added ++ [c]))
    else t :: mergeWalk fetched ts added) = _
  rw [if_pos ⟨hne, hl⟩, if_pos hold]

/-- Walk step: an item with no resolved thread passes through unchanged. -/
lemma mergeWalk_cons_pass (fetched : List (String × List Tweet)) (t : Tweet)
    (ts : List Tweet) (added : List String)
    (h : ∀ c, effConvId t = some c → c ≠ "" → List.lookup c fetched = none) :
    mergeWalk fetched (t :: ts) added = t :: mergeWalk fetched ts added := by
  rw [mergeWalk_cons_eq]
  cases hc : effConvId t with
  | none => rfl
  | some c =>
    show (if c ≠ "" ∧ (List.lookup c fetched).isSome = true then
        (if c ∈ added then mergeWalk fetched ts added
         else (List.lookup c fetched).getD [] ++ mergeWalk fetched ts (added ++ [c]))
      else t :: mergeWalk fetched ts added) = _
    by_cases hne : c = ""
    · rw [if_neg (by simp [hne])]
    · rw [if_neg (by rw [h c hc hne]; simp)]

/-- C6: in a batch [X, Y, Z] where X and Z share the resolved conversation id C and Y
has no resolved thread, the merge splices C's entire resolved thread at X's position,
drops Z's duplicate reference, and passes Y through unchanged, preserving order. -/
theorem fetchAndMergeThreads_splice_dedup
    (gfetch : String → Except String (List Tweet)) (username : String)
    (X Y Z : Tweet) (C : String) (th : List Tweet)
    (hC : C ≠ "")
    (hX : effConvId X = some C) (hZ : effConvId Z = some C)
    (hmem : C ∈ collectThreadIds username [X, Y, Z])
    (hth : gfetch C = Except.ok th) (hne : th ≠ [])
    (hY : ∀ d, effConvId Y = some d → d ≠ "" →
      List.lookup d (resolvedThreads gfetch (collectThreadIds username [X, Y, Z])) = none) :
    fetchAndMergeThreads gfetch username [X, Y, Z] = Except.ok (th ++ [Y]) := by
  unfold fetchAndMergeThreads
  have hids : ¬ (collectThreadIds username [X, Y, Z]).isEmpty = true := by
    intro he
    rw [List.isEmpty_iff.mp he] at hmem
    exact absurd hmem (by simp)
  rw [if_neg hids]
  rw [mapM_mergeTask]
  show Except.ok (mergeWalk (resolvedThreads gfetch (collectThreadIds username [X, Y, Z]))
    [X, Y, Z] []) = _
  have hval : mergeTaskVal gfetch C = (C, some th) := by
    unfold mergeTaskVal
    rw [hth]
    show (if 0 < th.length then ((C, some th) : String × Option (List Tweet))
      else (C, none)) = (C, some th)
    rw [if_pos (List.length_pos.mpr hne)]
  have hlC : List.lookup C (resolvedThreads gfetch (collectThreadIds username [X, Y, Z]))
      = some th :=
    lookup_buildFold_found gfetch (collectThreadIds username [X, Y, Z]) [] C th
      (collectThreadIds_nodup username [X, Y, Z]) hmem hval rfl
  rw [mergeWalk_cons_resolved (resolvedThreads gfetch (collectThreadIds username [X, Y, Z]))
    X [Y, Z] [] C th hX hC hlC (by simp)]
  rw [List.nil_append]
  rw [mergeWalk_cons_pass (resolvedThreads gfetch (collectThreadIds username [X, Y, Z]))
    Y [Z] [C] (fun d hd hdne => hY d hd hdne)]
  rw [mergeWalk_cons_dup (resolvedThreads gfetch (collectThreadIds username [X, Y, Z]))
    Z [] [C] C hZ hC (by rw [hlC]; rfl) (by simp)]
  rfl

/-- Thread member of conversation C, for the C6 witness. -/
def cTweet (n : String) : Tweet :=
  Tweet.mk (some n) none none false none (some "C") false none none []

/-- Self-reply batch item mapping to conversation C. -/
def demoX : Tweet :=
  Tweet.mk (some "x") (some "t") none false none (some "C") true none none []

/-- Batch item with no conversation id. -/
def demoY : Tweet :=
  Tweet.mk (some "y") (some "t") none false none none false none none []

/-- Second self-reply batch item mapping to conversation C. -/
def demoZ : Tweet :=
  Tweet.mk (some "z") (some "t") none false none (some "C") true none none []

/-- Thread oracle resolving conversation C to the three-part thread. -/
def gfetchDemo : String → Except String (List Tweet) :=
  fun c => if c = "C" then Except.ok [cTweet "C1", cTweet "C2", cTweet "C3"]
    else Except.error "nope"

/-- Witness for C6: the batch [X, Y, Z] with X and Z in conversation C and resolved
thread [C1, C2, C3] merges to [C1, C2, C3, Y]. -/
theorem fetchAndMergeThreads_splice_dedup_witness :
    fetchAndMergeThreads gfetchDemo "user" [demoX, demoY, demoZ] =
      Except.ok ([cTweet "C1", cTweet "C2", cTweet "C3"] ++ [demoY]) :=
  fetchAndMergeThreads_splice_dedup gfetchDemo "user" demoX demoY demoZ "C"
    [cTweet "C1", cTweet "C2", cTweet "C3"]
    (by decide) rfl rfl (by decide) rfl (by simp)
    (fun d hd => nomatch hd)

end TwitterApi
